import Mathlib

/-!
Quickshell: window hand-off, screen registry and session-lock reconciliation.

A shallow embedding of

* `src/cpp/proxywindow.cpp` (`ProxyWindowBase`, `ProxyFloatingWindow`),
* `src/core/qmlglobal.cpp` (`QuickshellTracked::updateScreens`),
* `src/wayland/session_lock.cpp` (`WlSessionLock`),

Pointers are natural-number identities, a nullable pointer is an `Option`.
Native windows live in a heap; dereferencing a null (or dangling) pointer
aborts the operation, which is the result `none`.  Deferred destruction
(`deleteLater`) appends the object to a queue; signal emission that a
statement is about is counted in the emitting object.  Delivery of Qt
signals to connected slots is outside the model.
-/

namespace Quickshell

/-! ## Native windows and the heap -/

/-- A rectangle `QRect(x, y, w, h)`. -/
structure QRect where
  x : Int
  y : Int
  w : Int
  h : Int
deriving DecidableEq, Repr

/-- A region, as the list of rectangles it was built from; `QRegion()` is the
empty list and `QRegion(QRect)` a singleton. -/
abbrev QRegion := List QRect

/-- The native window capability (`QQuickWindow`): geometry, visibility, the
clip mask, the screen, the child content behind its `data` property and the
objects whose slots are connected to its signals. -/
structure QQuickWindow where
  width : Int := 0
  height : Int := 0
  visible : Bool := false
  mask : QRegion := []
  screen : Option Nat := none
  data : List Nat := []
  receivers : List Nat := []
deriving DecidableEq, Repr

/-- The process heap: the native windows ever constructed (a window pointer is
an index into `windows`), the next fresh `QObject` identity, and the queue of
objects scheduled with `deleteLater`. -/
structure Heap where
  windows : List QQuickWindow := []
  nextObj : Nat := 0
  deleteLater : List Nat := []
deriving DecidableEq, Repr

/-- The expression `new QQuickWindow()`: a fresh, hidden, empty window. -/
def Heap.newWindow (h : Heap) : Nat × Heap :=
  (h.windows.length, { h with windows := h.windows ++ [({} : QQuickWindow)] })

/-- Read through a window pointer; `none` when the pointer is null or dangling. -/
def Heap.window (h : Heap) (w : Option Nat) : Option QQuickWindow :=
  match w with
  | none => none
  | some i => h.windows[i]?

/-- Write through a window pointer; `none` when the pointer is null or dangling. -/
def Heap.modifyWindow (h : Heap) (w : Option Nat) (f : QQuickWindow → QQuickWindow) :
    Option Heap :=
  match w with
  | none => none
  | some i =>
    match h.windows[i]? with
    | none => none
    | some win => some { h with windows := h.windows.set i (f win) }

/-- The call `QObject::disconnect(window, nullptr, receiver, nullptr)`: Qt
rejects a null sender with a warning and does nothing. -/
def Heap.disconnect (h : Heap) (w : Option Nat) (receiver : Nat) : Option Heap :=
  match w with
  | none => some h
  | some i => h.modifyWindow (some i)
      (fun win => { win with receivers := win.receivers.filter (fun r => r != receiver) })

/-- The call `obj->deleteLater()`. -/
def Heap.scheduleDelete (h : Heap) (obj : Nat) : Heap :=
  { h with deleteLater := h.deleteLater ++ [obj] }

/-! ## Region masks (`region.hpp` is not part of the sources) -/

/-- Modelled from the spec: the combine modes of a region, `enum Intersection`
of the absent `region.hpp`; the source only names `Intersection::Combine`. -/
inductive Intersection where
  | Combine
  | Replace
  | Union
  | Intersect
  | Subtract
deriving DecidableEq, Repr

/-- A `PendingRegion` object: its identity and its own top-level mode. -/
structure PendingRegion where
  id : Nat
  mIntersection : Intersection
deriving DecidableEq, Repr

/-- The two methods of `PendingRegion` the window code calls; their bodies are
in the absent `region.cpp`, so they are parameters. -/
structure RegionOps where
  build : PendingRegion → QRegion
  applyTo : PendingRegion → QRegion → QRegion

/-! ## `ProxyWindowBase` -/

/-- The fields of `ProxyWindowBase` the source reads and writes, with the
number of `maskChanged` emissions. -/
structure ProxyWindowBase where
  id : Nat
  window : Option Nat := none
  mMask : Option PendingRegion := none
  maskChanged : Nat := 0
deriving DecidableEq, Repr

/-- What a `QObject*` may point to, as far as `qobject_cast<ProxyWindowBase*>`
can tell. -/
inductive QObject where
  | proxyWindow (p : ProxyWindowBase)
  | other (id : Nat)
deriving DecidableEq, Repr

/-- The cast `qobject_cast<ProxyWindowBase*>(old)`. -/
def QObject.asProxyWindow : Option QObject → Option ProxyWindowBase
  | some (QObject.proxyWindow p) => some p
  | _ => none

/-- Embeds `ProxyWindowBase::dataBacker` followed by `backer.clear`, i.e.
`ProxyWindowBase::dataClear`: reads `that->window->property("data")`. -/
def ProxyWindowBase.dataClear (self : ProxyWindowBase) (h : Heap) : Option Heap :=
  h.modifyWindow self.window (fun win => { win with data := [] })

/-- Embeds `ProxyWindowBase::disownWindow`. -/
def ProxyWindowBase.disownWindow (self : ProxyWindowBase) (h : Heap) :
    Option (Option Nat × ProxyWindowBase × Heap) := do
  let h1 ← h.disconnect self.window self.id
  let h2 ← self.dataClear h1
  let h3 ← self.dataClear h2
  let window := self.window
  pure (window, { self with window := none }, h3)

/-- Embeds `ProxyWindowBase::earlyInit`.  Returns the new object, the predecessor as
the call leaves it, and the heap.  The four connections from the window to
the object are one entry in `receivers`; the three connections of the object
to its own `onMaskChanged` slot do not touch the state kept here. -/
def ProxyWindowBase.earlyInit (self : ProxyWindowBase) (old : Option QObject) (h : Heap) :
    Option (ProxyWindowBase × Option QObject × Heap) := do
  let oldpw := QObject.asProxyWindow old
  let (window, old1, h1) ←
    (match oldpw with
     | none =>
       let (w, h1) := h.newWindow
       some (some w, old, h1)
     | some p =>
       if p.window = none then
         let (w, h1) := h.newWindow
         some (some w, old, h1)
       else do
         let (w, p1, h1) ← p.disownWindow h
         pure (w, some (QObject.proxyWindow p1), h1))
  let self1 := { self with window := window }
  let h2 ← h1.modifyWindow self1.window (fun win => { win with mask := [] })
  let h3 ← h2.modifyWindow self1.window
    (fun win => { win with receivers := win.receivers ++ [self.id] })
  pure (self1, old1, h3)

/-- Embeds `ProxyWindowBase::backingWindow`. -/
def ProxyWindowBase.backingWindow (self : ProxyWindowBase) : Option Nat := self.window

/-- Embeds `ProxyWindowBase::width` (from `PROXYPROP`). -/
def ProxyWindowBase.width (self : ProxyWindowBase) (h : Heap) : Option Int :=
  (h.window self.window).map (fun win => win.width)

/-- Embeds `ProxyWindowBase::height` (from `PROXYPROP`). -/
def ProxyWindowBase.height (self : ProxyWindowBase) (h : Heap) : Option Int :=
  (h.window self.window).map (fun win => win.height)

/-- Embeds `ProxyWindowBase::isVisible` (from `PROXYPROP`). -/
def ProxyWindowBase.isVisible (self : ProxyWindowBase) (h : Heap) : Option Bool :=
  (h.window self.window).map (fun win => win.visible)

/-- Embeds `ProxyWindowBase::setWidth` (from `PROXYPROP`). -/
def ProxyWindowBase.setWidth (self : ProxyWindowBase) (value : Int) (h : Heap) : Option Heap :=
  h.modifyWindow self.window (fun win => { win with width := value })

/-- Embeds `ProxyWindowBase::setHeight` (from `PROXYPROP`). -/
def ProxyWindowBase.setHeight (self : ProxyWindowBase) (value : Int) (h : Heap) : Option Heap :=
  h.modifyWindow self.window (fun win => { win with height := value })

/-- Embeds `ProxyWindowBase::mask`. -/
def ProxyWindowBase.mask (self : ProxyWindowBase) : Option PendingRegion := self.mMask

/-- Embeds `ProxyWindowBase::setMask`. -/
def ProxyWindowBase.setMask (self : ProxyWindowBase) (mask : Option PendingRegion)
    (h : Heap) : ProxyWindowBase × Heap :=
  let h1 :=
    (match self.mMask with
     | some m => h.scheduleDelete m.id
     | none => h)
  match mask with
  | some m => ({ self with mMask := some m, maskChanged := self.maskChanged + 1 }, h1)
  | none => (self, h1)

/-- Embeds `ProxyWindowBase::onMaskChanged`. -/
def ProxyWindowBase.onMaskChanged (ops : RegionOps) (self : ProxyWindowBase) (h : Heap) :
    Option Heap := do
  let mask ←
    (match self.mMask with
     | none => some []
     | some m =>
       if m.mIntersection = Intersection.Combine then
         some (ops.build m)
       else do
         let w ← self.width h
         let ht ← self.height h
         let windowRegion : QRegion := [QRect.mk 0 0 w ht]
         pure (ops.applyTo m windowRegion))
  h.modifyWindow self.window (fun win => { win with mask := mask })

/-! ## `ProxyFloatingWindow` -/

/-- A `ProxyFloatingWindow`: a `ProxyWindowBase` with the `geometryLocked` flag. -/
structure ProxyFloatingWindow extends ProxyWindowBase where
  geometryLocked : Bool := false
deriving DecidableEq, Repr

/-- Embeds `ProxyFloatingWindow::earlyInit`. -/
def ProxyFloatingWindow.earlyInit (self : ProxyFloatingWindow) (old : Option QObject)
    (h : Heap) : Option (ProxyFloatingWindow × Option QObject × Heap) := do
  let (b, old1, h1) ← self.toProxyWindowBase.earlyInit old h
  let visible ← b.isVisible h1
  pure ({ self with toProxyWindowBase := b, geometryLocked := visible }, old1, h1)

/-- Embeds `ProxyFloatingWindow::componentComplete`; the base class method is not in
the sources and is the parameter `baseComplete`. -/
def ProxyFloatingWindow.componentComplete
    (baseComplete : ProxyWindowBase → Heap → ProxyWindowBase × Heap)
    (self : ProxyFloatingWindow) (h : Heap) : ProxyFloatingWindow × Heap :=
  let (b, h1) := baseComplete self.toProxyWindowBase h
  ({ self with toProxyWindowBase := b, geometryLocked := true }, h1)

/-- Embeds `ProxyFloatingWindow::setWidth`. -/
def ProxyFloatingWindow.setWidth (self : ProxyFloatingWindow) (value : Int) (h : Heap) :
    Option Heap :=
  if !self.geometryLocked then self.toProxyWindowBase.setWidth value h else some h

/-- Embeds `ProxyFloatingWindow::setHeight`. -/
def ProxyFloatingWindow.setHeight (self : ProxyFloatingWindow) (value : Int) (h : Heap) :
    Option Heap :=
  if !self.geometryLocked then self.toProxyWindowBase.setHeight value h else some h

/-! ## The screen registry (`QuickshellTracked`) -/

/-- A `QuickshellScreenInfo` wrapper: its own identity and the `QScreen*` it
wraps. -/
structure QuickshellScreenInfo where
  id : Nat
  screen : Nat
deriving DecidableEq, Repr

/-- The fields of `QuickshellTracked`, with the number of `screensChanged`
emissions. -/
structure QuickshellTracked where
  screens : List QuickshellScreenInfo := []
  screensChanged : Nat := 0
deriving DecidableEq, Repr

/-- The inner loop of `updateScreens`: the first wrapper of `newScreen` in
`this->screens`, and `this->screens` with that entry removed. -/
def takeScreen (newScreen : Nat) :
    List QuickshellScreenInfo → Option (QuickshellScreenInfo × List QuickshellScreenInfo)
  | [] => none
  | oldScreen :: rest =>
    if newScreen = oldScreen.screen then some (oldScreen, rest)
    else
      match takeScreen newScreen rest with
      | none => none
      | some (found, rest1) => some (found, oldScreen :: rest1)

/-- The outer loop of `updateScreens` over the enumerated screens, threading
`this->screens`, `newScreens` and the heap. -/
def updateScreensLoop :
    List Nat → List QuickshellScreenInfo → List QuickshellScreenInfo → Heap →
      List QuickshellScreenInfo × List QuickshellScreenInfo × Heap
  | [], thisScreens, newScreens, h => (thisScreens, newScreens, h)
  | newScreen :: more, thisScreens, newScreens, h =>
    match takeScreen newScreen thisScreens with
    | some (oldScreen, thisScreens1) =>
      updateScreensLoop more thisScreens1 (newScreens ++ [oldScreen]) h
    | none =>
      let si : QuickshellScreenInfo := { id := h.nextObj, screen := newScreen }
      updateScreensLoop more thisScreens (newScreens ++ [si])
        { h with nextObj := h.nextObj + 1 }

/-- Embeds `QuickshellTracked::updateScreens`, given `QGuiApplication::screens()`. -/
def QuickshellTracked.updateScreens (self : QuickshellTracked) (screens : List Nat)
    (h : Heap) : QuickshellTracked × Heap :=
  let (thisScreens, newScreens, h1) := updateScreensLoop screens self.screens [] h
  let h2 := thisScreens.foldl (fun hh oldScreen => hh.scheduleDelete oldScreen.id) h1
  ({ screens := newScreens, screensChanged := self.screensChanged + 1 }, h2)

/-! ## The session lock (`WlSessionLock`) -/

/-- A `QMap<QScreen*, T*>`: the entries in ascending key order. -/
abbrev QMap (α : Type) := List (Nat × α)

/-- Embeds `QMap::contains`. -/
def QMap.contains {α : Type} (m : QMap α) (key : Nat) : Bool :=
  m.any (fun e => e.1 == key)

/-- Embeds `QMap::value(key, nullptr)`. -/
def QMap.value {α : Type} (m : QMap α) (key : Nat) : Option α :=
  (m.find? (fun e => e.1 == key)).map (fun e => e.2)

/-- Embeds `QMap::remove`. -/
def QMap.remove {α : Type} (m : QMap α) (key : Nat) : QMap α :=
  m.filter (fun e => e.1 != key)

/-- Embeds `map[key] = value`: replaces the entry of `key` or inserts one at its
place in key order. -/
def QMap.insert {α : Type} : QMap α → Nat → α → QMap α
  | [], key, value => [(key, value)]
  | (k, v) :: rest, key, value =>
    if key < k then (key, value) :: (k, v) :: rest
    else if key = k then (key, value) :: rest
    else (k, v) :: QMap.insert rest key value

/-- Embeds `QMap::values`. -/
def QMap.values {α : Type} (m : QMap α) : List α := m.map (fun e => e.2)

/-- The keys of a mapping are strictly ascending, as in every `QMap`. -/
def QMap.Sorted {α : Type} (m : QMap α) : Prop :=
  List.Pairwise (fun a b => a.1 < b.1) m

/-- Modelled from the spec: the native lock manager (`SessionLockManager`,
whose sources are absent) holds the authoritative lock state. -/
structure SessionLockManager where
  locked : Bool := false
deriving DecidableEq, Repr

/-- Modelled from the spec: `SessionLockManager::isLocked`. -/
def SessionLockManager.isLocked (m : SessionLockManager) : Bool := m.locked

/-- Modelled from the spec: `SessionLockManager::lock`; whether the compositor
grants the lock is the parameter `granted`, a failed attempt changes nothing. -/
def SessionLockManager.lock (granted : Bool) (m : SessionLockManager) :
    Bool × SessionLockManager :=
  if granted then (true, { m with locked := true }) else (false, m)

/-- Modelled from the spec: `SessionLockManager::unlock` releases the native
lock. -/
def SessionLockManager.unlock (m : SessionLockManager) : SessionLockManager :=
  { m with locked := false }

/-- The fields of `WlSessionLockSurface` that reconciliation touches, with the
number of `show()` calls it has received. -/
structure WlSessionLockSurface where
  id : Nat
  parent : Option Nat := none
  mScreen : Option Nat := none
  window : Option Nat := none
  showCalls : Nat := 0
deriving DecidableEq, Repr

/-- Embeds `WlSessionLockSurface::disownWindow`. -/
def WlSessionLockSurface.disownWindow (self : WlSessionLockSurface) (h : Heap) :
    Option (Option Nat × WlSessionLockSurface × Heap) := do
  let h1 ← h.disconnect self.window self.id
  let window := self.window
  pure (window, { self with window := none }, h1)

/-- Embeds `WlSessionLockSurface::setScreen`. -/
def WlSessionLockSurface.setScreen (self : WlSessionLockSurface) (qscreen : Option Nat)
    (h : Heap) : Option (WlSessionLockSurface × Heap) :=
  if self.window = none then
    some ({ self with mScreen := qscreen }, h)
  else do
    let h1 ← h.modifyWindow self.window (fun win => { win with screen := qscreen })
    pure (self, h1)

/-- Embeds `WlSessionLockSurface::onReload`: adopt the window of the old instance or
construct one, put it on the surface's screen and connect to it.  Returns the
surface, the old instance as the call leaves it, and the heap.  The content
item, the colour and `ext->attach`, whose failure only logs a warning, do not
touch the state kept here. -/
def WlSessionLockSurface.onReload (self : WlSessionLockSurface)
    (oldInstance : Option WlSessionLockSurface) (h : Heap) :
    Option (WlSessionLockSurface × Option WlSessionLockSurface × Heap) := do
  let (self1, old1, h1) ←
    (match oldInstance with
     | some old => do
       let (w, o1, h1) ← old.disownWindow h
       pure ({ self with window := w }, some o1, h1)
     | none => some (self, none, h))
  let (self2, h2) :=
    (if self1.window = none then
       let (w, hh) := h1.newWindow
       ({ self1 with window := some w }, hh)
     else (self1, h1))
  let h3 ←
    (if self2.mScreen ≠ none then
       h2.modifyWindow self2.window (fun win => { win with screen := self2.mScreen })
     else some h2)
  let h4 ← h3.modifyWindow self2.window
    (fun win => { win with receivers := win.receivers ++ [self2.id] })
  pure (self2, old1, h4)

/-- Embeds `WlSessionLockSurface::show`, which forwards to `ext->setVisible()`:
the call is counted. -/
def WlSessionLockSurface.show (self : WlSessionLockSurface) : WlSessionLockSurface :=
  { self with showCalls := self.showCalls + 1 }

/-- What the surface component can yield: nothing, an object that is not a
`WlSessionLockSurface`, or a `WlSessionLockSurface`. -/
inductive Created where
  | null
  | other
  | surface
deriving DecidableEq, Repr

/-- The object behind the `QObject*` that `QQmlComponent::create` returns. -/
inductive CreatedObject where
  | other (id : Nat)
  | surface (s : WlSessionLockSurface)
deriving DecidableEq, Repr

/-- The surface factory (`QQmlComponent`): what its `k`-th `create` call
yields is the parameter `yields`. -/
structure QQmlComponent where
  id : Nat
  calls : Nat := 0
  yields : Nat → Created

/-- Embeds `QQmlComponent::create`: a created object gets a fresh identity. -/
def QQmlComponent.create (c : QQmlComponent) (h : Heap) :
    Option CreatedObject × QQmlComponent × Heap :=
  let c1 := { c with calls := c.calls + 1 }
  match c.yields c.calls with
  | Created.null => (none, c1, h)
  | Created.other =>
    (some (CreatedObject.other h.nextObj), c1, { h with nextObj := h.nextObj + 1 })
  | Created.surface =>
    (some (CreatedObject.surface { id := h.nextObj }), c1, { h with nextObj := h.nextObj + 1 })

/-- The cast `qobject_cast<WlSessionLockSurface*>(instanceObj)`. -/
def CreatedObject.asSurface : Option CreatedObject → Option WlSessionLockSurface
  | some (CreatedObject.surface s) => some s
  | _ => none

/-- The fields of `WlSessionLock`, with the number of `lockStateChanged`
emissions. -/
structure WlSessionLock where
  id : Nat
  manager : Option SessionLockManager := none
  lockTarget : Bool := false
  mSurfaceComponent : Option QQmlComponent := none
  surfaces : QMap WlSessionLockSurface := []
  lockStateChanged : Nat := 0

/-- Embeds `WlSessionLock::isLocked`. -/
def WlSessionLock.isLocked (self : WlSessionLock) : Bool :=
  match self.manager with
  | none => self.lockTarget
  | some m => m.isLocked

/-- Embeds `WlSessionLock::unlock`. -/
def WlSessionLock.unlock (self : WlSessionLock) (h : Heap) : Option (WlSessionLock × Heap) :=
  if self.isLocked then
    match self.manager with
    | none => none
    | some m =>
      let h1 := (QMap.values self.surfaces).foldl (fun hh surface => hh.scheduleDelete surface.id) h
      some ({ self with
                lockTarget := false
                manager := some m.unlock
                surfaces := []
                lockStateChanged := self.lockStateChanged + 1 }, h1)
  else some (self, h)

/-- The first loop of `updateSurfaces`, over a copy of the mapping: every
surface whose screen is not enumerated leaves the mapping and is scheduled for
destruction. -/
def removeStale (screens : List Nat) :
    List (Nat × WlSessionLockSurface) → QMap WlSessionLockSurface → Heap →
      QMap WlSessionLockSurface × Heap
  | [], surfaces, h => (surfaces, h)
  | (screen, surface) :: rest, surfaces, h =>
    if !screens.contains screen then
      removeStale screens rest (QMap.remove surfaces screen) (h.scheduleDelete surface.id)
    else removeStale screens rest surfaces h

/-- The loop `for (auto* surface: this->surfaces.values()) surface->show()`. -/
def WlSessionLock.showAll (self : WlSessionLock) : WlSessionLock :=
  { self with surfaces := self.surfaces.map (fun e => (e.1, e.2.show)) }

/-- Write the old instance back into the mapping of the old `WlSessionLock`
after `onReload` has changed it. -/
def writeBack (old : Option WlSessionLock) (screen : Nat)
    (oldInstance : Option WlSessionLockSurface) : Option WlSessionLock :=
  match old, oldInstance with
  | some o, some s => some { o with surfaces := QMap.insert o.surfaces screen s }
  | _, _ => old

/-- One iteration of the second loop of `updateSurfaces`.  The flag is `true`
when the iteration executed `return` (after `unlock`). -/
def WlSessionLock.surfaceStep (screen : Nat) (self : WlSessionLock)
    (old : Option WlSessionLock) (h : Heap) :
    Option (Bool × WlSessionLock × Option WlSessionLock × Heap) :=
  if !QMap.contains self.surfaces screen then
    match self.mSurfaceComponent with
    | none => none
    | some c =>
      let (instanceObj, c1, h1) := c.create h
      let self1 := { self with mSurfaceComponent := some c1 }
      match CreatedObject.asSurface instanceObj with
      | none =>
        let h2 :=
          (match instanceObj with
           | some (CreatedObject.other id) => h1.scheduleDelete id
           | some (CreatedObject.surface s) => h1.scheduleDelete s.id
           | none => h1)
        (self1.unlock h2).map (fun r => (true, r.1, old, r.2))
      | some inst => do
        let inst1 := { inst with parent := some self.id }
        let (inst2, h2) ← inst1.setScreen (some screen) h1
        let oldInstance := old.bind (fun o => QMap.value o.surfaces screen)
        let (inst3, oldInstance1, h3) ← inst2.onReload oldInstance h2
        let self2 := { self1 with surfaces := QMap.insert self1.surfaces screen inst3 }
        pure (false, self2.showAll, writeBack old screen oldInstance1, h3)
  else some (false, self.showAll, old, h)

/-- The second loop of `updateSurfaces`, over the enumerated screens. -/
def WlSessionLock.surfaceLoop :
    List Nat → WlSessionLock → Option WlSessionLock → Heap →
      Option (WlSessionLock × Option WlSessionLock × Heap)
  | [], self, old, h => some (self, old, h)
  | screen :: rest, self, old, h =>
    match self.surfaceStep screen old h with
    | none => none
    | some (true, self1, old1, h1) => some (self1, old1, h1)
    | some (false, self1, old1, h1) => WlSessionLock.surfaceLoop rest self1 old1 h1

/-- Embeds `WlSessionLock::updateSurfaces(old)`, given `QGuiApplication::screens()`. -/
def WlSessionLock.updateSurfaces (screens : List Nat) (self : WlSessionLock)
    (old : Option WlSessionLock) (h : Heap) :
    Option (WlSessionLock × Option WlSessionLock × Heap) :=
  match self.manager with
  | none => none
  | some m =>
    if m.isLocked then
      let (surfaces1, h1) := removeStale screens self.surfaces self.surfaces h
      let self1 := { self with surfaces := surfaces1 }
      if self1.mSurfaceComponent.isNone then
        (self1.unlock h1).map (fun r => (r.1, old, r.2))
      else WlSessionLock.surfaceLoop screens self1 old h1
    else some (self, old, h)

/-- Embeds `WlSessionLock::onScreensChanged`: `updateSurfaces()` with the default
argument `nullptr`. -/
def WlSessionLock.onScreensChanged (screens : List Nat) (self : WlSessionLock) (h : Heap) :
    Option (WlSessionLock × Heap) :=
  (self.updateSurfaces screens none h).map (fun r => (r.1, r.2.2))

/-- Embeds `WlSessionLock::setLocked`, given `QGuiApplication::screens()` and whether
the compositor grants a native lock. -/
def WlSessionLock.setLocked (granted : Bool) (screens : List Nat) (self : WlSessionLock)
    (locked : Bool) (h : Heap) : Option (WlSessionLock × Heap) :=
  if self.isLocked = locked then some (self, h)
  else
    let self1 := { self with lockTarget := locked }
    match self1.manager with
    | none => some ({ self1 with lockStateChanged := self1.lockStateChanged + 1 }, h)
    | some m =>
      if locked then do
        let (ok, m1) := m.lock granted
        let self2 := { self1 with manager := some m1 }
        let self3 := if !ok then { self2 with lockTarget := false } else self2
        let (self4, _, h1) ← self3.updateSurfaces screens none h
        if self4.lockTarget then
          pure ({ self4 with lockStateChanged := self4.lockStateChanged + 1 }, h1)
        else pure (self4, h1)
      else self1.unlock h

/-! ## Named states used by the statements below -/

/-- What `earlyInit` leaves of an adopted window: the predecessor is
disconnected, the child content and the mask are cleared, the new owner is
connected; geometry, visibility and screen are those of the window. -/
def adoptedWindow (win : QQuickWindow) (predId selfId : Nat) : QQuickWindow :=
  { win with
      mask := []
      data := []
      receivers := win.receivers.filter (fun r => r != predId) ++ [selfId] }


/-- A window that is on screen, 800 by 600, with one child and its owner,
object 1, connected. -/
def shownWindow : QQuickWindow :=
  { width := 800, height := 600, visible := true, data := [7], receivers := [1] }

/-- A heap holding `shownWindow` as window 0. -/
def shownHeap : Heap := { windows := [shownWindow], nextObj := 10 }

/-- The proxy window of the old generation, owning window 0. -/
def predecessor : ProxyWindowBase := { id := 1, window := some 0 }

/-- A proxy window of the new generation, before `earlyInit`. -/
def successor : ProxyWindowBase := { id := 2 }

/-- A floating window of the new generation, before `earlyInit`. -/
def floatingSuccessor : ProxyFloatingWindow := { id := 2 }

/-- A mask whose own mode is not the `Combine` sentinel. -/
def intersectMask : PendingRegion := { id := 5, mIntersection := Intersection.Intersect }

/-- Region methods for the examples: `build` yields one fixed rectangle and
`applyTo` appends it to the base region. -/
def sampleOps : RegionOps :=
  { build := fun _ => [QRect.mk 10 10 20 20]
    applyTo := fun _ base => base ++ [QRect.mk 10 10 20 20] }

/-- The floating window after `earlyInit` has adopted window 0 of
`predecessor` over `shownHeap`. -/
def adoptedFloating : ProxyFloatingWindow :=
  { id := 2, window := some 0, geometryLocked := true }

/-- The heap after that hand-off. -/
def adoptedHeap : Heap :=
  { windows := [{ width := 800, height := 600, visible := true, receivers := [2] }],
    nextObj := 10 }

/-- The registry tracking screens 1, 2, 3 (A, B, C) with wrappers 11, 12, 13. -/
def trackedABC : QuickshellTracked :=
  { screens := [{ id := 11, screen := 1 }, { id := 12, screen := 2 }, { id := 13, screen := 3 }] }

/-- A heap without windows whose next fresh object identity is 20. -/
def registryHeap : Heap := { nextObj := 20 }

/-- The surface that one iteration of `updateSurfaces` creates for `screen`
when the factory yields a lock surface and there is no old generation: a fresh
object, parented to the lock, on a fresh window. -/
def freshSurface (lockId screen : Nat) (h : Heap) : WlSessionLockSurface :=
  { id := h.nextObj, parent := some lockId, mScreen := some screen,
    window := some h.windows.length }

/-- The heap after that iteration: one more object, one more window, placed on
`screen` and connected to the new surface. -/
def freshSurfaceHeap (screen : Nat) (h : Heap) : Heap :=
  { h with
      nextObj := h.nextObj + 1
      windows := h.windows ++ [({ screen := some screen, receivers := [h.nextObj] } : QQuickWindow)] }

/-- What `WlSessionLock::unlock` leaves of a lock that is held. -/
def unlockedLock (self : WlSessionLock) : WlSessionLock :=
  { self with
      lockTarget := false
      manager := some { locked := false }
      surfaces := []
      lockStateChanged := self.lockStateChanged + 1 }

/-- A run of `onScreensChanged` calls, one for each successive enumeration. -/
def WlSessionLock.screensChangedRun :
    List (List Nat) → WlSessionLock → Heap → Option (WlSessionLock × Heap)
  | [], self, h => some (self, h)
  | screens :: later, self, h =>
    match self.onScreensChanged screens h with
    | none => none
    | some (self1, h1) => WlSessionLock.screensChangedRun later self1 h1

/-- A surface factory that yields a lock surface at every call. -/
def surfaceFactory : QQmlComponent := { id := 3, yields := fun _ => Created.surface }

/-- A surface factory that yields a lock surface once and then an object of
another type. -/
def brokenFactory : QQmlComponent :=
  { id := 3, yields := fun k => if k = 0 then Created.surface else Created.other }

/-- A lock with a native lock manager and a valid factory, not locked. -/
def idleLock : WlSessionLock :=
  { id := 1, manager := some { locked := false }, mSurfaceComponent := some surfaceFactory }

/-- A lock without a native lock manager, not locked. -/
def unmanagedLock : WlSessionLock := { id := 1, mSurfaceComponent := some surfaceFactory }

/-- A heap in which only the lock and its factory have been allocated. -/
def lockHeap : Heap := { nextObj := 10 }

/-- The lock held over screens 1 and 2, with surfaces 10 and 11. -/
def lockedTwo : WlSessionLock :=
  { id := 1
    manager := some { locked := true }
    lockTarget := true
    mSurfaceComponent := some { surfaceFactory with calls := 2 }
    surfaces :=
      [(1, { id := 10, parent := some 1, mScreen := some 1, window := some 0, showCalls := 2 }),
       (2, { id := 11, parent := some 1, mScreen := some 2, window := some 1, showCalls := 1 })]
    lockStateChanged := 1 }

/-- The heap that goes with `lockedTwo`. -/
def lockedTwoHeap : Heap :=
  { windows := [{ screen := some 1, receivers := [10] }, { screen := some 2, receivers := [11] }]
    nextObj := 12 }

/-- The lock of `lockedTwo` after screen 2 has gone: surface 10 only. -/
def lockedOne : WlSessionLock :=
  { lockedTwo with
      surfaces :=
        [(1, { id := 10, parent := some 1, mScreen := some 1, window := some 0, showCalls := 3 })] }

/-- The heap that goes with `lockedOne`: surface 11 awaits destruction. -/
def lockedOneHeap : Heap := { lockedTwoHeap with deleteLater := [11] }

/-- The mapping covers the enumeration: it holds exactly one surface for each
enumerated screen, none for any other screen, and `show()` has been called on
every surface it holds. -/
def WlSessionLock.Covers (self : WlSessionLock) (screens : List Nat) : Prop :=
  (∀ k, (self.surfaces.filter (fun e => e.1 == k)).length = if k ∈ screens then 1 else 0) ∧
  (∀ e ∈ self.surfaces, 0 < e.2.showCalls)

/-- A lock with a native lock manager and the broken factory, not locked. -/
def brokenLock : WlSessionLock :=
  { id := 1, manager := some { locked := false }, mSurfaceComponent := some brokenFactory }

/-- A mask object in `Combine` mode. -/
def combineMask : PendingRegion := { id := 6, mIntersection := Intersection.Combine }

/-- A proxy window on window 0 that has `combineMask` as its mask. -/
def maskedWindow : ProxyWindowBase := { id := 1, window := some 0, mMask := some combineMask }

/-- A lock with a native lock manager and no surface factory, not locked. -/
def factorylessLock : WlSessionLock := { id := 1, manager := some { locked := false } }
/-! ## Heap lemmas -/

theorem Heap.modifyWindow_some (h : Heap) (i : Nat) (f : QQuickWindow → QQuickWindow)
    (win : QQuickWindow) (hw : h.windows[i]? = some win) :
    h.modifyWindow (some i) f = some { h with windows := h.windows.set i (f win) } := by
  simp [Heap.modifyWindow, hw]

theorem Heap.modifyWindow_none (h : Heap) (f : QQuickWindow → QQuickWindow) :
    h.modifyWindow none f = none := rfl

theorem Heap.getElem?_set_self (ws : List QQuickWindow) (i : Nat) (x win : QQuickWindow)
    (hw : ws[i]? = some win) : (ws.set i x)[i]? = some x := by
  have hlt : i < ws.length := by
    rcases List.getElem?_eq_some.mp hw with ⟨hi, _⟩
    exact hi
  simp [List.getElem?_set, hlt]

/-! ## Window hand-off -/

theorem earlyInit_adopt (self pred : ProxyWindowBase) (h : Heap) (w : Nat)
    (win : QQuickWindow) (hw : pred.window = some w) (hwin : h.windows[w]? = some win) :
    self.earlyInit (some (QObject.proxyWindow pred)) h =
      some ({ self with window := some w },
            some (QObject.proxyWindow { pred with window := none }),
            { h with windows := h.windows.set w (adoptedWindow win pred.id self.id) }) := by
  have hlt : w < h.windows.length := (List.getElem?_eq_some.mp hwin).1
  simp [ProxyWindowBase.earlyInit, QObject.asProxyWindow, hw, ProxyWindowBase.disownWindow,
    ProxyWindowBase.dataClear, Heap.disconnect, Heap.modifyWindow, hwin, List.getElem?_set,
    hlt, adoptedWindow]

theorem earlyInit_cold (self : ProxyWindowBase) (old : Option QObject) (h : Heap)
    (hold : QObject.asProxyWindow old = none ∨
      ∃ pred, old = some (QObject.proxyWindow pred) ∧ pred.window = none) :
    self.earlyInit old h =
      some ({ self with window := some h.windows.length }, old,
            { h with windows := h.windows ++
                [({ receivers := [self.id] } : QQuickWindow)] }) := by
  rcases hold with hnone | ⟨pred, hp, hwn⟩
  · simp [ProxyWindowBase.earlyInit, hnone, Heap.newWindow, Heap.modifyWindow]
  · subst hp
    simp [ProxyWindowBase.earlyInit, QObject.asProxyWindow, hwn, Heap.newWindow,
      Heap.modifyWindow]

theorem Heap.foldl_scheduleDelete {α : Type} (f : α → Nat) (l : List α) (h : Heap) :
    l.foldl (fun hh o => hh.scheduleDelete (f o)) h =
      { h with deleteLater := h.deleteLater ++ l.map f } := by
  induction l generalizing h with
  | nil => simp
  | cons a rest ih =>
    rw [List.foldl_cons, ih]
    simp [Heap.scheduleDelete]


/-- C1: `earlyInit(predecessor)` hands the window over.  When the predecessor
is a proxy window holding the live window `w`, the new object's backing window
is `w` itself, the predecessor's backing window is null, and the heap has the
same windows as before (none is constructed; `w` keeps geometry, visibility
and screen).  When the predecessor is absent, is not a proxy window, or holds
no window, the new object holds the freshly constructed window, whose pointer
`h.windows.length` was not in use before, and the predecessor is untouched. -/
theorem earlyInit_window_handoff (self : ProxyWindowBase) (old : Option QObject) (h : Heap) :
    (∀ (pred : ProxyWindowBase) (w : Nat) (win : QQuickWindow),
        old = some (QObject.proxyWindow pred) → pred.window = some w →
        h.windows[w]? = some win →
        self.earlyInit old h =
          some ({ self with window := some w },
                some (QObject.proxyWindow { pred with window := none }),
                { h with windows := h.windows.set w (adoptedWindow win pred.id self.id) })) ∧
    ((QObject.asProxyWindow old = none ∨
        ∃ pred, old = some (QObject.proxyWindow pred) ∧ pred.window = none) →
        self.earlyInit old h =
          some ({ self with window := some h.windows.length }, old,
                { h with windows := h.windows ++
                    [({ receivers := [self.id] } : QQuickWindow)] })) := by
  refine ⟨?_, ?_⟩
  · intro pred w win hold hw hwin
    subst hold
    exact earlyInit_adopt self pred h w win hw hwin
  · intro hold
    exact earlyInit_cold self old h hold

/-- Witness of C1: the successor adopts window 0 of the predecessor over
`shownHeap`, and constructs window 1 when there is no predecessor. -/
theorem earlyInit_window_handoff_witness :
    successor.earlyInit (some (QObject.proxyWindow predecessor)) shownHeap =
        some ({ id := 2, window := some 0 },
              some (QObject.proxyWindow { id := 1, window := none }),
              { windows := [{ width := 800, height := 600, visible := true, receivers := [2] }],
                nextObj := 10 }) ∧
      successor.earlyInit none shownHeap =
        some ({ id := 2, window := some 1 }, none,
              { windows := [shownWindow, { receivers := [2] }], nextObj := 10 }) :=
  ⟨(earlyInit_window_handoff successor (some (QObject.proxyWindow predecessor)) shownHeap).1
      predecessor 0 shownWindow rfl rfl rfl,
   (earlyInit_window_handoff successor none shownHeap).2 (Or.inl rfl)⟩

/-- On a proxy window that holds no native window `disownWindow` does not
return: after the tolerated `disconnect`, `dataClear` reads
`that->window->property("data")` through the null window pointer. -/
theorem disownWindow_without_window_aborts (self : ProxyWindowBase) (h : Heap) :
    ({ self with window := none } : ProxyWindowBase).disownWindow h = none := by
  simp [ProxyWindowBase.disownWindow, Heap.disconnect, ProxyWindowBase.dataClear,
    Heap.modifyWindow]

theorem disownWindow_holder (self : ProxyWindowBase) (h : Heap) (w : Nat) (win : QQuickWindow)
    (hw : self.window = some w) (hwin : h.windows[w]? = some win) :
    self.disownWindow h =
      some (some w, { self with window := none },
            { h with
                windows := h.windows.set w
                  { win with
                      data := []
                      receivers := win.receivers.filter (fun r => r != self.id) } }) := by
  have hlt : w < h.windows.length := (List.getElem?_eq_some.mp hwin).1
  simp [ProxyWindowBase.disownWindow, ProxyWindowBase.dataClear, Heap.disconnect,
    Heap.modifyWindow, hw, hwin, List.getElem?_set, hlt]

/-- Counterexample to C6 as stated: `disownWindow` on the successor, which was
never initialised, and on the predecessor once its window is gone, does not
return null: the call aborts on the null window pointer. -/
theorem disownWindow_empty_handle_aborts :
    successor.window = none ∧ successor.disownWindow shownHeap = none ∧
      ({ predecessor with window := none } : ProxyWindowBase).disownWindow shownHeap = none := by
  decide

/-- C6, amended: disowning is check-then-disown.  On a proxy window that holds
no native window `disownWindow` does not return (clearing the child content
reads through the absent window); `earlyInit`, its caller, checks the
predecessor first: for a predecessor without a window it completes without
calling `disownWindow`, constructs a fresh window and leaves the predecessor
as it was, holding none; on a proxy window that holds the live window `w`,
`disownWindow` returns `w`, leaves the object holding no window, and on `w`
only removes the object's connections and clears the child content. -/
theorem disownWindow_requires_window (self pred : ProxyWindowBase) (h : Heap) :
    (({ pred with window := none } : ProxyWindowBase).disownWindow h = none) ∧
    (pred.window = none →
      self.earlyInit (some (QObject.proxyWindow pred)) h =
        some ({ self with window := some h.windows.length },
              some (QObject.proxyWindow pred),
              { h with
                  windows := h.windows ++ [({ receivers := [self.id] } : QQuickWindow)] })) ∧
    (∀ (w : Nat) (win : QQuickWindow), pred.window = some w → h.windows[w]? = some win →
      pred.disownWindow h =
        some (some w, { pred with window := none },
              { h with
                  windows := h.windows.set w
                    { win with
                        data := []
                        receivers := win.receivers.filter (fun r => r != pred.id) } })) := by
  refine ⟨disownWindow_without_window_aborts pred h, ?_, ?_⟩
  · intro hnone
    exact earlyInit_cold self (some (QObject.proxyWindow pred)) h (Or.inr ⟨pred, rfl, hnone⟩)
  · intro w win hw hwin
    exact disownWindow_holder pred h w win hw hwin

/-- Witness of C6, amended: the successor starts cold from a predecessor
whose window is gone, and the predecessor that holds window 0 gives it up. -/
theorem disownWindow_requires_window_witness :
    successor.earlyInit
        (some (QObject.proxyWindow { predecessor with window := none })) shownHeap =
        some ({ id := 2, window := some 1 },
              some (QObject.proxyWindow { id := 1, window := none }),
              { windows := [shownWindow, { receivers := [2] }], nextObj := 10 }) ∧
      predecessor.disownWindow shownHeap =
        some (some 0, { id := 1, window := none },
              { windows := [{ width := 800, height := 600, visible := true }],
                nextObj := 10 }) :=
  ⟨(disownWindow_requires_window successor { predecessor with window := none } shownHeap).2.1
      rfl,
   (disownWindow_requires_window successor predecessor shownHeap).2.2 0 shownWindow rfl rfl⟩

/-- The sibling `WlSessionLockSurface::disownWindow` on a surface without a
window returns null and changes nothing. -/
theorem lockSurface_disownWindow_without_window (self : WlSessionLockSurface) (h : Heap)
    (hw : self.window = none) : self.disownWindow h = some (none, self, h) := by
  cases self
  simp_all [WlSessionLockSurface.disownWindow, Heap.disconnect]

/-- C9: `onMaskChanged` on a proxy window whose window `w` has width
`win.width` and height `win.height` sets the clip mask of `w`, and nothing
else, to the empty region when no mask is set, to `build()` when the mask's
own mode is `Combine`, and to `applyTo(QRect(0, 0, width, height))` for every
other mode. -/
theorem onMaskChanged_policy (ops : RegionOps) (self : ProxyWindowBase) (h : Heap) (w : Nat)
    (win : QQuickWindow) (hw : self.window = some w) (hwin : h.windows[w]? = some win) :
    self.onMaskChanged ops h =
      some { h with
        windows := h.windows.set w
          { win with
              mask :=
                (match self.mMask with
                 | none => []
                 | some m =>
                   if m.mIntersection = Intersection.Combine then ops.build m
                   else ops.applyTo m [QRect.mk 0 0 win.width win.height]) } } := by
  cases hm : self.mMask with
  | none =>
    simp [ProxyWindowBase.onMaskChanged, hm, hw, Heap.modifyWindow, hwin]
  | some m =>
    by_cases hc : m.mIntersection = Intersection.Combine
    · simp [ProxyWindowBase.onMaskChanged, hm, hw, Heap.modifyWindow, hwin, hc]
    · simp [ProxyWindowBase.onMaskChanged, hm, hw, Heap.modifyWindow, hwin, hc,
        ProxyWindowBase.width, ProxyWindowBase.height, Heap.window]

/-- Witness of C9: a mask in `Intersect` mode on the 800 by 600 window. -/
theorem onMaskChanged_policy_witness :
    ({ id := 1, window := some 0, mMask := some intersectMask } : ProxyWindowBase).onMaskChanged
        sampleOps shownHeap =
      some { windows := [{ shownWindow with
                            mask := [QRect.mk 0 0 800 600, QRect.mk 10 10 20 20] }],
             nextObj := 10 } :=
  onMaskChanged_policy sampleOps { id := 1, window := some 0, mMask := some intersectMask }
    shownHeap 0 shownWindow rfl rfl

theorem floating_setters_locked (fw : ProxyFloatingWindow) (v : Int) (h : Heap)
    (hl : fw.geometryLocked = true) :
    fw.setWidth v h = some h ∧ fw.setHeight v h = some h := by
  simp [ProxyFloatingWindow.setWidth, ProxyFloatingWindow.setHeight, hl]

/-- Counterexample to C10 as stated: the floating successor adopts the shown
800 by 600 window of its predecessor; before `componentComplete`,
`setWidth(1024)` and `setHeight(768)` leave the heap as it is, so the window
is still 800 by 600. -/
theorem floating_handoff_does_not_bypass_lock :
    floatingSuccessor.earlyInit (some (QObject.proxyWindow predecessor)) shownHeap =
        some (adoptedFloating, some (QObject.proxyWindow { id := 1, window := none }),
              adoptedHeap) ∧
      adoptedFloating.setWidth 1024 adoptedHeap = some adoptedHeap ∧
      adoptedFloating.setHeight 768 adoptedHeap = some adoptedHeap ∧
      adoptedFloating.toProxyWindowBase.width adoptedHeap = some 800 ∧
      adoptedFloating.toProxyWindowBase.height adoptedHeap = some 600 ∧
      ¬ ((adoptedFloating.setWidth 1024 adoptedHeap).bind
            (fun h1 => adoptedFloating.toProxyWindowBase.width h1) = some 1024) := by
  refine ⟨rfl, rfl, rfl, rfl, rfl, ?_⟩
  decide

/-- C10, amended: from `componentComplete` onward `setWidth(v)` and
`setHeight(v)` change nothing.  Between `earlyInit` and `componentComplete`
the lock is the visibility the window had at `earlyInit`: after a hand-off of
the live window `w`, the setters change nothing when `w` was visible and set
its width, respectively height, to `v` when it was hidden; on a cold start
the fresh window is hidden and the setters set its size to `v`. -/
theorem floating_geometry_lock
    (baseComplete : ProxyWindowBase → Heap → ProxyWindowBase × Heap)
    (self : ProxyFloatingWindow) (old : Option QObject) (h : Heap) (v : Int) :
    ((self.componentComplete baseComplete h).1.setWidth v
          (self.componentComplete baseComplete h).2 =
        some (self.componentComplete baseComplete h).2 ∧
      (self.componentComplete baseComplete h).1.setHeight v
          (self.componentComplete baseComplete h).2 =
        some (self.componentComplete baseComplete h).2) ∧
    (∀ (pred : ProxyWindowBase) (w : Nat) (win : QQuickWindow),
        old = some (QObject.proxyWindow pred) → pred.window = some w →
        h.windows[w]? = some win →
        ∃ fw h1,
          self.earlyInit old h =
            some (fw, some (QObject.proxyWindow { pred with window := none }), h1) ∧
          fw.window = some w ∧ fw.geometryLocked = win.visible ∧
          h1.windows[w]? = some (adoptedWindow win pred.id self.id) ∧
          (win.visible = true → fw.setWidth v h1 = some h1 ∧ fw.setHeight v h1 = some h1) ∧
          (win.visible = false →
            fw.setWidth v h1 =
              some { h1 with
                windows := h1.windows.set w
                  { adoptedWindow win pred.id self.id with width := v } } ∧
            fw.setHeight v h1 =
              some { h1 with
                windows := h1.windows.set w
                  { adoptedWindow win pred.id self.id with height := v } })) ∧
    ((QObject.asProxyWindow old = none ∨
        ∃ pred, old = some (QObject.proxyWindow pred) ∧ pred.window = none) →
        ∃ fw h1,
          self.earlyInit old h = some (fw, old, h1) ∧
          fw.window = some h.windows.length ∧ fw.geometryLocked = false ∧
          fw.setWidth v h1 =
            some { h1 with
              windows := h.windows ++ [({ width := v, receivers := [self.id] } : QQuickWindow)] } ∧
          fw.setHeight v h1 =
            some { h1 with
              windows := h.windows ++
                [({ height := v, receivers := [self.id] } : QQuickWindow)] }) := by
  refine ⟨?_, ?_, ?_⟩
  · exact floating_setters_locked _ v _ rfl
  · intro pred w win hold hw hwin
    subst hold
    have hlt : w < h.windows.length := (List.getElem?_eq_some.mp hwin).1
    have hadopt := earlyInit_adopt self.toProxyWindowBase pred h w win hw hwin
    refine ⟨{ self with window := some w, geometryLocked := win.visible },
      { h with windows := h.windows.set w (adoptedWindow win pred.id self.id) },
      ?_, rfl, rfl, ?_, ?_, ?_⟩
    · simp [ProxyFloatingWindow.earlyInit, hadopt, ProxyWindowBase.isVisible, Heap.window,
        List.getElem?_set, hlt, adoptedWindow]
    · simp [List.getElem?_set, hlt]
    · intro hv
      exact floating_setters_locked _ v _ hv
    · intro hv
      simp [ProxyFloatingWindow.setWidth, ProxyFloatingWindow.setHeight, hv,
        ProxyWindowBase.setWidth, ProxyWindowBase.setHeight, Heap.modifyWindow,
        List.getElem?_set, hlt]
  · intro hold
    have hcold := earlyInit_cold self.toProxyWindowBase old h hold
    refine ⟨{ self with window := some h.windows.length, geometryLocked := false },
      { h with windows := h.windows ++ [({ receivers := [self.id] } : QQuickWindow)] },
      ?_, rfl, rfl, ?_, ?_⟩
    · simp [ProxyFloatingWindow.earlyInit, hcold, ProxyWindowBase.isVisible, Heap.window]
    · simp [ProxyFloatingWindow.setWidth, ProxyWindowBase.setWidth, Heap.modifyWindow]
    · simp [ProxyFloatingWindow.setHeight, ProxyWindowBase.setHeight, Heap.modifyWindow]

/-- Witness of C10, amended: over `shownHeap` the hand-off of the visible
window 0 leaves `setWidth(1024)` without effect, and a cold start lets it
through to the fresh window 1. -/
theorem floating_geometry_lock_witness :
    (∃ fw h1,
        floatingSuccessor.earlyInit (some (QObject.proxyWindow predecessor)) shownHeap =
          some (fw, some (QObject.proxyWindow { predecessor with window := none }), h1) ∧
        fw.setWidth 1024 h1 = some h1) ∧
    (∃ fw h1,
        floatingSuccessor.earlyInit none shownHeap = some (fw, none, h1) ∧
        fw.window = some 1 ∧
        fw.setWidth 1024 h1 =
          some { h1 with
            windows := shownHeap.windows ++
              [({ width := 1024, receivers := [2] } : QQuickWindow)] }) := by
  constructor
  · obtain ⟨fw, h1, he, _, _, _, hvis, _⟩ :=
      (floating_geometry_lock (fun b hh => (b, hh)) floatingSuccessor
        (some (QObject.proxyWindow predecessor)) shownHeap 1024).2.1
        predecessor 0 shownWindow rfl rfl rfl
    exact ⟨fw, h1, he, (hvis rfl).1⟩
  · obtain ⟨fw, h1, he, hw, _, hset, _⟩ :=
      (floating_geometry_lock (fun b hh => (b, hh)) floatingSuccessor none shownHeap 1024).2.2
        (Or.inl rfl)
    exact ⟨fw, h1, he, hw, hset⟩

/-! ## Screen registry -/

theorem takeScreen_none (s : Nat) (cur : List QuickshellScreenInfo) :
    takeScreen s cur = none ↔ s ∉ cur.map (fun x => x.screen) := by
  induction cur with
  | nil => simp [takeScreen]
  | cons x rest ih =>
    by_cases hs : s = x.screen
    · simp [takeScreen, hs]
    · cases ht : takeScreen s rest with
      | none =>
        have := ih.mp ht
        simp [takeScreen, hs, ht]
        simpa using this
      | some p =>
        have hne : ¬ (s ∉ rest.map (fun x => x.screen)) := by
          intro hn
          have := ih.mpr hn
          simp [ht] at this
        simp [takeScreen, hs, ht]
        simpa using hne

theorem takeScreen_some (s : Nat) (cur : List QuickshellScreenInfo) (x : QuickshellScreenInfo)
    (cur1 : List QuickshellScreenInfo) (hnd : (cur.map (fun y => y.screen)).Nodup)
    (ht : takeScreen s cur = some (x, cur1)) :
    x ∈ cur ∧ x.screen = s ∧ cur1 = cur.filter (fun y => y.screen != s) := by
  induction cur generalizing cur1 with
  | nil => simp [takeScreen] at ht
  | cons y rest ih =>
    simp only [List.map_cons, List.nodup_cons] at hnd
    by_cases hs : s = y.screen
    · simp [takeScreen, hs] at ht
      obtain ⟨rfl, rfl⟩ := ht
      refine ⟨by simp, hs.symm, ?_⟩
      have hall : ∀ z ∈ rest, (z.screen != s) = true := by
        intro z hz
        have : z.screen ≠ y.screen := by
          intro he
          exact hnd.1 (List.mem_map.mpr ⟨z, hz, he⟩)
        simpa [hs] using this
      rw [hs] at hall
      simp [List.filter_cons, hs, List.filter_eq_self.mpr hall]
    · cases hr : takeScreen s rest with
      | none => simp [takeScreen, hs, hr] at ht
      | some p =>
        obtain ⟨f, r1⟩ := p
        simp [takeScreen, hs, hr] at ht
        obtain ⟨rfl, rfl⟩ := ht
        obtain ⟨hm, hsc, hr1⟩ := ih r1 hnd.2 hr
        have hys : (y.screen != s) = true := by
          simpa using fun he : y.screen = s => hs he.symm
        refine ⟨List.mem_cons_of_mem _ hm, hsc, ?_⟩
        simp [List.filter_cons, hys, hr1]

theorem updateScreensLoop_spec (screens : List Nat) :
    ∀ (cur acc : List QuickshellScreenInfo) (h : Heap),
      screens.Nodup → (cur.map (fun x => x.screen)).Nodup →
      (cur.map (fun x => x.id)).Nodup → (∀ x ∈ cur, x.id < h.nextObj) →
      ∃ added : List QuickshellScreenInfo,
        updateScreensLoop screens cur acc h =
          (cur.filter (fun x => decide (x.screen ∉ screens)), acc ++ added,
           { h with
               nextObj := h.nextObj +
                 (screens.filter
                   (fun s => decide (s ∉ cur.map (fun x => x.screen)))).length }) ∧
        added.map (fun x => x.screen) = screens ∧
        (∀ x ∈ added,
          x ∈ cur ∨ (x.screen ∉ cur.map (fun y => y.screen) ∧ h.nextObj ≤ x.id)) ∧
        (added.map (fun x => x.id)).Nodup := by
  induction screens with
  | nil =>
    intro cur acc h _ _ _ _
    refine ⟨[], ?_, rfl, by simp, by simp⟩
    simp [updateScreensLoop]
  | cons s rest ih =>
    intro cur acc h hnd hcs hci hlt
    rw [List.nodup_cons] at hnd
    obtain ⟨hsr, hrest⟩ := hnd
    cases ht : takeScreen s cur with
    | some p =>
      obtain ⟨x, cur1⟩ := p
      obtain ⟨hx, hxs, hcur1⟩ := takeScreen_some s cur x cur1 hcs ht
      have hsub : ∀ y, y ∈ cur1 → y ∈ cur ∧ y.screen ≠ s := by
        intro y hy
        rw [hcur1] at hy
        simpa using hy
      have hcs1 : (cur1.map (fun x => x.screen)).Nodup := by
        rw [hcur1]
        exact (hcs.sublist ((List.filter_sublist _).map _))
      have hci1 : (cur1.map (fun x => x.id)).Nodup := by
        rw [hcur1]
        exact (hci.sublist ((List.filter_sublist _).map _))
      have hlt1 : ∀ y ∈ cur1, y.id < h.nextObj := fun y hy => hlt y (hsub y hy).1
      obtain ⟨added, hloop, hmap, hmem, hids⟩ := ih cur1 (acc ++ [x]) h hrest hcs1 hci1 hlt1
      have hscr : ∀ t, t ≠ s →
          (t ∈ cur1.map (fun y => y.screen) ↔ t ∈ cur.map (fun y => y.screen)) := by
        intro t hts
        simp only [List.mem_map]
        constructor
        · rintro ⟨y, hy, rfl⟩
          exact ⟨y, (hsub y hy).1, rfl⟩
        · rintro ⟨y, hy, rfl⟩
          refine ⟨y, ?_, rfl⟩
          rw [hcur1]
          simpa using ⟨hy, hts⟩
      have hsin : s ∈ cur.map (fun y => y.screen) := List.mem_map.mpr ⟨x, hx, hxs⟩
      refine ⟨x :: added, ?_, ?_, ?_, ?_⟩
      · simp only [updateScreensLoop, ht, hloop]
        have h1 : cur1.filter (fun x => decide (x.screen ∉ rest)) =
            cur.filter (fun x => decide (x.screen ∉ s :: rest)) := by
          rw [hcur1, List.filter_filter]
          apply List.filter_congr
          intro y _
          by_cases hys : y.screen = s <;> simp [hys]
        have h2 : rest.filter (fun t => decide (t ∉ cur1.map (fun x => x.screen))) =
            (s :: rest).filter (fun t => decide (t ∉ cur.map (fun x => x.screen))) := by
          rw [List.filter_cons]
          simp only [hsin, not_true_eq_false, decide_False, Bool.false_eq_true, if_false]
          apply List.filter_congr
          intro t htr
          have hts : t ≠ s := fun he => hsr (he ▸ htr)
          simp only [hscr t hts]
        rw [h1, h2]
        simp
      · simp [hmap, hxs]
      · intro y hy
        rcases List.mem_cons.mp hy with rfl | hy
        · exact Or.inl hx
        · rcases hmem y hy with hyc | ⟨hyn, hyb⟩
          · exact Or.inl (hsub y hyc).1
          · right
            have hyr : y.screen ∈ rest := by
              rw [← hmap]
              exact List.mem_map.mpr ⟨y, hy, rfl⟩
            have hys : y.screen ≠ s := fun he => hsr (he ▸ hyr)
            exact ⟨fun hc => hyn ((hscr _ hys).mpr hc), hyb⟩
      · rw [List.map_cons, List.nodup_cons]
        refine ⟨?_, hids⟩
        intro hxi
        obtain ⟨y, hy, hyx⟩ := List.mem_map.mp hxi
        rcases hmem y hy with hyc | ⟨_, hyb⟩
        · have hyin := (hsub y hyc).1
          have hyeq : y = x := by
            have hinj := List.inj_on_of_nodup_map hci
            exact hinj hyin hx hyx
          exact (hsub y hyc).2 (hyeq ▸ hxs)
        · have := hlt x hx
          omega
    | none =>
      have hsn : s ∉ cur.map (fun y => y.screen) := (takeScreen_none s cur).mp ht
      have hlt1 : ∀ y ∈ cur, y.id < ({ h with nextObj := h.nextObj + 1 } : Heap).nextObj :=
        fun y hy => Nat.lt_succ_of_lt (hlt y hy)
      obtain ⟨added, hloop, hmap, hmem, hids⟩ :=
        ih cur (acc ++ [{ id := h.nextObj, screen := s }])
          { h with nextObj := h.nextObj + 1 } hrest hcs hci hlt1
      refine ⟨{ id := h.nextObj, screen := s } :: added, ?_, ?_, ?_, ?_⟩
      · simp only [updateScreensLoop, ht, hloop]
        have h1 : cur.filter (fun x => decide (x.screen ∉ rest)) =
            cur.filter (fun x => decide (x.screen ∉ s :: rest)) := by
          apply List.filter_congr
          intro y hy
          have hys : y.screen ≠ s := fun he => hsn (List.mem_map.mpr ⟨y, hy, he⟩)
          simp [hys]
        rw [h1, List.filter_cons]
        simp [hsn]
        omega
      · simp [hmap]
      · intro y hy
        rcases List.mem_cons.mp hy with rfl | hy
        · exact Or.inr ⟨hsn, Nat.le_refl _⟩
        · rcases hmem y hy with hyc | ⟨hyn, hyb⟩
          · exact Or.inl hyc
          · exact Or.inr ⟨hyn, Nat.le_of_succ_le hyb⟩
      · rw [List.map_cons, List.nodup_cons]
        refine ⟨?_, hids⟩
        intro hxi
        obtain ⟨y, hy, hyx⟩ := List.mem_map.mp hxi
        rcases hmem y hy with hyc | ⟨_, hyb⟩
        · have := hlt y hyc
          simp only at hyx
          omega
        · simp only at hyx hyb
          omega

/-- C4: `updateScreens` over a registry holding one wrapper per distinct
screen (wrappers being distinct objects allocated before) and a duplicate-free
enumeration leaves exactly one wrapper per enumerated screen, in enumeration
order, all distinct objects; every old wrapper whose screen is enumerated is
in the new list, a wrapper of an already tracked screen is that old wrapper,
every other wrapper has an identity not allocated before; exactly one object
is allocated per enumerated screen not tracked before; and `deleteLater` is
called on exactly the old wrappers whose screen is no longer enumerated. -/
theorem updateScreens_diff (self : QuickshellTracked) (screens : List Nat) (h : Heap)
    (hold : (self.screens.map (fun x => x.screen)).Nodup) (hnew : screens.Nodup)
    (hids : (self.screens.map (fun x => x.id)).Nodup)
    (halloc : ∀ x ∈ self.screens, x.id < h.nextObj) :
    ((self.updateScreens screens h).1.screens.map (fun x => x.screen) = screens) ∧
    ((self.updateScreens screens h).1.screens.map (fun x => x.id)).Nodup ∧
    (∀ x ∈ self.screens, x.screen ∈ screens → x ∈ (self.updateScreens screens h).1.screens) ∧
    (∀ x ∈ (self.updateScreens screens h).1.screens,
      x.screen ∈ self.screens.map (fun y => y.screen) → x ∈ self.screens) ∧
    (∀ x ∈ (self.updateScreens screens h).1.screens,
      x.screen ∉ self.screens.map (fun y => y.screen) → h.nextObj ≤ x.id) ∧
    ((self.updateScreens screens h).2.nextObj =
      h.nextObj +
        (screens.filter (fun s => decide (s ∉ self.screens.map (fun y => y.screen)))).length) ∧
    ((self.updateScreens screens h).2.deleteLater =
      h.deleteLater ++
        (self.screens.filter (fun x => decide (x.screen ∉ screens))).map (fun x => x.id)) ∧
    ((self.updateScreens screens h).2.windows = h.windows) ∧
    ((self.updateScreens screens h).1.screensChanged = self.screensChanged + 1) := by
  obtain ⟨added, hloop, hmap, hmem, hnd⟩ :=
    updateScreensLoop_spec screens self.screens [] h hnew hold hids halloc
  have hres : self.updateScreens screens h =
      ({ screens := added, screensChanged := self.screensChanged + 1 },
       { h with
           nextObj := h.nextObj +
             (screens.filter
               (fun s => decide (s ∉ self.screens.map (fun y => y.screen)))).length
           deleteLater := h.deleteLater ++
             (self.screens.filter (fun x => decide (x.screen ∉ screens))).map
               (fun x => x.id) }) := by
    simp only [QuickshellTracked.updateScreens, hloop, Heap.foldl_scheduleDelete, List.nil_append]
  rw [hres]
  refine ⟨hmap, hnd, ?_, ?_, ?_, rfl, rfl, rfl, rfl⟩
  · intro x hx hxs
    have hxa : x.screen ∈ added.map (fun y => y.screen) := by rw [hmap]; exact hxs
    obtain ⟨y, hy, hyx⟩ := List.mem_map.mp hxa
    rcases hmem y hy with hyc | ⟨hyn, _⟩
    · have hinj := List.inj_on_of_nodup_map hold
      have : y = x := hinj hyc hx hyx
      exact this ▸ hy
    · exact absurd (List.mem_map.mpr ⟨x, hx, hyx.symm⟩) hyn
  · intro x hx hxs
    rcases hmem x hx with hxc | ⟨hxn, _⟩
    · exact hxc
    · exact absurd hxs hxn
  · intro x hx hxs
    rcases hmem x hx with hxc | ⟨_, hb⟩
    · exact absurd (List.mem_map.mpr ⟨x, hxc, rfl⟩) hxs
    · exact hb

/-- Witness of C4: old wrappers for A, B, C and the enumeration B, C, D give
the old wrappers of B and C, one new wrapper for D, and one destruction, of
the wrapper of A. -/
theorem updateScreens_diff_witness :
    (trackedABC.updateScreens [2, 3, 4] registryHeap).1.screens.map (fun x => x.screen) =
        [2, 3, 4] ∧
      (trackedABC.updateScreens [2, 3, 4] registryHeap).1.screens =
        [{ id := 12, screen := 2 }, { id := 13, screen := 3 }, { id := 20, screen := 4 }] ∧
      (trackedABC.updateScreens [2, 3, 4] registryHeap).2.nextObj = 21 ∧
      (trackedABC.updateScreens [2, 3, 4] registryHeap).2.deleteLater = [11] :=
  have hthm := updateScreens_diff trackedABC [2, 3, 4] registryHeap (by decide) (by decide)
    (by decide) (by decide)
  ⟨hthm.1, by decide, hthm.2.2.2.2.2.1, hthm.2.2.2.2.2.2.1⟩

/-! ## The surface mapping -/

theorem QMap.contains_eq_isSome {α : Type} (m : QMap α) (k : Nat) :
    QMap.contains m k = (QMap.value m k).isSome := by
  induction m with
  | nil => rfl
  | cons e rest ih =>
    by_cases he : e.1 = k
    · simp [QMap.contains, QMap.value, List.find?_cons, he]
    · simp only [QMap.contains, QMap.value] at ih
      simp [QMap.contains, QMap.value, List.find?_cons, he, ih]

theorem QMap.value_cons {α : Type} (e : Nat × α) (m : QMap α) (k : Nat) :
    QMap.value (e :: m) k = if e.1 = k then some e.2 else QMap.value m k := by
  by_cases he : e.1 = k <;> simp [QMap.value, List.find?_cons, he]

theorem QMap.value_insert {α : Type} (m : QMap α) (k : Nat) (v : α) (k1 : Nat) :
    QMap.value (QMap.insert m k v) k1 = if k1 = k then some v else QMap.value m k1 := by
  induction m with
  | nil =>
    by_cases h1 : k1 = k
    · simp [QMap.insert, QMap.value_cons, h1]
    · have h2 : ¬ k = k1 := fun e => h1 e.symm
      simp [QMap.insert, QMap.value_cons, h1, h2, QMap.value]
  | cons e rest ih =>
    obtain ⟨ek, ev⟩ := e
    by_cases hlt : k < ek
    · by_cases h1 : k1 = k
      · simp [QMap.insert, hlt, QMap.value_cons, h1]
      · have h2 : ¬ k = k1 := fun e => h1 e.symm
        simp [QMap.insert, hlt, QMap.value_cons, h1, h2]
    · by_cases heq : k = ek
      · subst heq
        by_cases h1 : k1 = k
        · simp [QMap.insert, QMap.value_cons, h1]
        · have h2 : ¬ k = k1 := fun e => h1 e.symm
          simp [QMap.insert, QMap.value_cons, h1, h2]
      · by_cases h1 : k1 = k
        · subst h1
          have h3 : ¬ ek = k1 := fun e => heq e.symm
          simp [QMap.insert, hlt, heq, QMap.value_cons, ih, h3]
        · simp [QMap.insert, hlt, heq, QMap.value_cons, ih, h1]

theorem QMap.value_map {α : Type} (f : α → α) (m : QMap α) (k : Nat) :
    QMap.value (m.map (fun e => (e.1, f e.2))) k = (QMap.value m k).map f := by
  induction m with
  | nil => rfl
  | cons e rest ih =>
    rw [List.map_cons, QMap.value_cons, QMap.value_cons, ih]
    by_cases he : e.1 = k <;> simp [he]

theorem QMap.value_filter {α : Type} (p : Nat → Bool) (m : QMap α) (k : Nat) :
    QMap.value (m.filter (fun e => p e.1)) k = if p k then QMap.value m k else none := by
  induction m with
  | nil => simp [QMap.value]
  | cons e rest ih =>
    by_cases hp : p e.1 = true
    · simp only [List.filter_cons, hp, if_true]
      rw [QMap.value_cons, QMap.value_cons, ih]
      by_cases he : e.1 = k
      · subst he
        simp [hp]
      · simp [he]
    · simp only [List.filter_cons, hp, Bool.false_eq_true, if_false]
      rw [QMap.value_cons, ih]
      by_cases he : e.1 = k
      · subst he
        simp [hp]
      · simp [he]

theorem QMap.mem_of_value {α : Type} (m : QMap α) (k : Nat) (v : α)
    (hv : QMap.value m k = some v) : (k, v) ∈ m := by
  induction m with
  | nil => simp [QMap.value] at hv
  | cons e rest ih =>
    rw [QMap.value_cons] at hv
    by_cases he : e.1 = k
    · simp only [he, if_true, Option.some.injEq] at hv
      have : e = (k, v) := Prod.ext he hv
      simp [this]
    · simp only [he, if_false] at hv
      exact List.mem_cons_of_mem _ (ih hv)

theorem QMap.value_of_mem {α : Type} (m : QMap α) (hs : QMap.Sorted m) (k : Nat) (v : α)
    (hm : (k, v) ∈ m) : QMap.value m k = some v := by
  induction m with
  | nil => simp at hm
  | cons e rest ih =>
    rw [QMap.Sorted, List.pairwise_cons] at hs
    rw [QMap.value_cons]
    rcases List.mem_cons.mp hm with heq | hin
    · simp [← heq]
    · have hlt := hs.1 (k, v) hin
      have hne : ¬ e.1 = k := by
        simp only at hlt
        omega
      simp only [hne, if_false]
      exact ih hs.2 hin

theorem QMap.mem_insert {α : Type} (m : QMap α) (k : Nat) (v : α) (e : Nat × α)
    (he : e ∈ QMap.insert m k v) : e = (k, v) ∨ e ∈ m := by
  induction m with
  | nil =>
    simp [QMap.insert] at he
    exact Or.inl he
  | cons x rest ih =>
    obtain ⟨xk, xv⟩ := x
    by_cases hlt : k < xk
    · simp only [QMap.insert, hlt, if_true, List.mem_cons] at he
      rcases he with h1 | h1 | h1
      · exact Or.inl h1
      · exact Or.inr (by simp [h1])
      · exact Or.inr (List.mem_cons_of_mem _ h1)
    · by_cases heq : k = xk
      · subst heq
        simp only [QMap.insert, lt_irrefl, if_false, if_true, List.mem_cons] at he
        rcases he with h1 | h1
        · exact Or.inl h1
        · exact Or.inr (List.mem_cons_of_mem _ h1)
      · simp only [QMap.insert, hlt, heq, if_false, List.mem_cons] at he
        rcases he with h1 | h1
        · exact Or.inr (by simp [h1])
        · rcases ih h1 with h2 | h2
          · exact Or.inl h2
          · exact Or.inr (List.mem_cons_of_mem _ h2)

theorem QMap.sorted_insert {α : Type} (m : QMap α) (hs : QMap.Sorted m) (k : Nat) (v : α) :
    QMap.Sorted (QMap.insert m k v) := by
  induction m with
  | nil => simp [QMap.insert, QMap.Sorted]
  | cons x rest ih =>
    obtain ⟨xk, xv⟩ := x
    have hs0 := hs
    rw [QMap.Sorted, List.pairwise_cons] at hs
    by_cases hlt : k < xk
    · simp only [QMap.insert, hlt, if_true]
      rw [QMap.Sorted, List.pairwise_cons]
      refine ⟨?_, hs0⟩
      intro e he
      rcases List.mem_cons.mp he with h1 | h1
      · simp [h1, hlt]
      · have := hs.1 e h1
        simp only at this ⊢
        omega
    · by_cases heq : k = xk
      · subst heq
        simp only [QMap.insert, lt_irrefl, if_false, if_true]
        rw [QMap.Sorted, List.pairwise_cons]
        exact ⟨hs.1, hs.2⟩
      · simp only [QMap.insert, hlt, heq, if_false]
        rw [QMap.Sorted, List.pairwise_cons]
        refine ⟨?_, ih hs.2⟩
        intro e he
        rcases QMap.mem_insert rest k v e he with h1 | h1
        · simp only [h1]
          omega
        · exact hs.1 e h1

theorem QMap.sorted_map {α : Type} (f : α → α) (m : QMap α) (hs : QMap.Sorted m) :
    QMap.Sorted (m.map (fun e => (e.1, f e.2))) := by
  rw [QMap.Sorted, List.pairwise_map]
  exact hs

theorem QMap.sorted_filter {α : Type} (p : Nat × α → Bool) (m : QMap α)
    (hs : QMap.Sorted m) : QMap.Sorted (m.filter p) :=
  List.Pairwise.sublist (List.filter_sublist m) hs

theorem removeStale_spec (screens : List Nat) :
    ∀ (copy : List (Nat × WlSessionLockSurface)) (m : QMap WlSessionLockSurface) (h : Heap),
      removeStale screens copy m h =
        (m.filter (fun e => !(copy.any (fun c => c.1 == e.1) && !screens.contains e.1)),
         { h with
             deleteLater := h.deleteLater ++
               (copy.filter (fun c => !screens.contains c.1)).map (fun c => c.2.id) }) := by
  intro copy
  induction copy with
  | nil =>
    intro m h
    simp [removeStale]
  | cons c rest ih =>
    intro m h
    obtain ⟨screen, surface⟩ := c
    by_cases hc : screen ∈ screens
    · have hc1 : screens.contains screen = true := by simpa using hc
      simp only [removeStale, hc1, Bool.not_true, Bool.false_eq_true, if_false, ih]
      refine Prod.ext ?_ ?_
      · apply List.filter_congr
        intro e _
        by_cases he : screen = e.1
        · have hin : e.1 ∈ screens := he ▸ hc
          simp [hin]
        · cases hr : rest.any (fun c => c.1 == e.1) <;> simp [hr, he]
      · simp [List.filter_cons, hc]
    · have hc1 : screens.contains screen = false := by simpa using hc
      simp only [removeStale, hc1, Bool.not_false, if_true, ih, QMap.remove, List.filter_filter]
      refine Prod.ext ?_ ?_
      · apply List.filter_congr
        intro e _
        by_cases he : screen = e.1
        · have hin : e.1 ∉ screens := he ▸ hc
          simp [he, hin]
        · have he1 : ¬ e.1 = screen := fun x => he x.symm
          have h1 : (screen == e.1) = false := by simpa using he
          have h2 : (e.1 != screen) = true := by simpa using he1
          cases hr : rest.any (fun c => c.1 == e.1) <;> simp [hr, h1, h2]
      · simp [List.filter_cons, hc, Heap.scheduleDelete]

theorem removeStale_self (screens : List Nat) (m : QMap WlSessionLockSurface) (h : Heap) :
    removeStale screens m m h =
      (m.filter (fun e => screens.contains e.1),
       { h with
           deleteLater := h.deleteLater ++
             (m.filter (fun e => !screens.contains e.1)).map (fun e => e.2.id) }) := by
  rw [removeStale_spec]
  refine Prod.ext ?_ rfl
  apply List.filter_congr
  intro e he
  have hany : m.any (fun c => c.1 == e.1) = true := by
    rw [List.any_eq_true]
    exact ⟨e, he, by simp⟩
  simp [hany]

theorem QMap.count_key {α : Type} (m : QMap α) (hs : QMap.Sorted m) (k : Nat) :
    (m.filter (fun e => e.1 == k)).length = if (QMap.value m k).isSome then 1 else 0 := by
  induction m with
  | nil => simp [QMap.value]
  | cons e rest ih =>
    rw [QMap.Sorted, List.pairwise_cons] at hs
    rw [QMap.value_cons]
    by_cases he : e.1 = k
    · have hnone : rest.filter (fun x => x.1 == k) = [] := by
        rw [List.filter_eq_nil_iff]
        intro x hx
        have := hs.1 x hx
        simp only [beq_iff_eq]
        omega
      simp [List.filter_cons, he, hnone]
    · simp only [List.filter_cons, beq_iff_eq, he, if_false]
      exact ih hs.2

theorem QMap.mem_insert_self {α : Type} (m : QMap α) (k : Nat) (v : α) :
    (k, v) ∈ QMap.insert m k v :=
  QMap.mem_of_value _ _ _ (by rw [QMap.value_insert]; simp)

theorem QMap.mem_insert_of_ne {α : Type} (m : QMap α) (k : Nat) (v : α) (e : Nat × α)
    (he : e ∈ m) (hne : e.1 ≠ k) : e ∈ QMap.insert m k v := by
  induction m with
  | nil => simp at he
  | cons x rest ih =>
    obtain ⟨xk, xv⟩ := x
    by_cases hlt : k < xk
    · simp only [QMap.insert, hlt, if_true]
      exact List.mem_cons_of_mem _ he
    · by_cases heq : k = xk
      · subst heq
        simp only [QMap.insert, lt_irrefl, if_false, if_true]
        rcases List.mem_cons.mp he with h1 | h1
        · exact absurd (by rw [h1]) hne
        · exact List.mem_cons_of_mem _ h1
      · simp only [QMap.insert, hlt, heq, if_false]
        rcases List.mem_cons.mp he with h1 | h1
        · rw [h1]
          exact List.mem_cons_self _ _
        · exact List.mem_cons_of_mem _ (ih h1)

theorem QMap.ne_of_not_contains {α : Type} (m : QMap α) (k : Nat)
    (hc : QMap.contains m k = false) (e : Nat × α) (he : e ∈ m) : e.1 ≠ k := by
  intro hk
  have : QMap.contains m k = true := by
    simp only [QMap.contains, List.any_eq_true]
    exact ⟨e, he, by simp [hk]⟩
  rw [hc] at this
  exact Bool.noConfusion this

/-! ## Session lock: single steps -/

theorem unlock_locked (self : WlSessionLock) (h : Heap) (m : SessionLockManager)
    (hm : self.manager = some m) (hl : m.locked = true) :
    self.unlock h =
      some (unlockedLock self,
            { h with
                deleteLater := h.deleteLater ++
                  (QMap.values self.surfaces).map (fun s => s.id) }) := by
  have hil : self.isLocked = true := by
    simp [WlSessionLock.isLocked, hm, SessionLockManager.isLocked, hl]
  simp [WlSessionLock.unlock, hil, hm, Heap.foldl_scheduleDelete, unlockedLock,
    SessionLockManager.unlock]

theorem surfaceStep_present (screen : Nat) (self : WlSessionLock) (old : Option WlSessionLock)
    (h : Heap) (hc : QMap.contains self.surfaces screen = true) :
    self.surfaceStep screen old h = some (false, self.showAll, old, h) := by
  simp [WlSessionLock.surfaceStep, hc]

theorem surfaceStep_create (screen : Nat) (self : WlSessionLock) (h : Heap)
    (c : QQmlComponent) (hcomp : self.mSurfaceComponent = some c)
    (hy : c.yields c.calls = Created.surface)
    (hc : QMap.contains self.surfaces screen = false) :
    self.surfaceStep screen none h =
      some (false,
            WlSessionLock.showAll
              { self with
                  mSurfaceComponent := some { c with calls := c.calls + 1 }
                  surfaces := QMap.insert self.surfaces screen (freshSurface self.id screen h) },
            none, freshSurfaceHeap screen h) := by
  simp [WlSessionLock.surfaceStep, hc, hcomp, QQmlComponent.create, hy,
    CreatedObject.asSurface, WlSessionLockSurface.setScreen, WlSessionLockSurface.onReload,
    Heap.newWindow, Heap.modifyWindow, writeBack, freshSurface, freshSurfaceHeap]

theorem surfaceStep_reject (screen : Nat) (self : WlSessionLock) (h : Heap)
    (c : QQmlComponent) (m : SessionLockManager) (hcomp : self.mSurfaceComponent = some c)
    (hy : c.yields c.calls ≠ Created.surface)
    (hc : QMap.contains self.surfaces screen = false)
    (hm : self.manager = some m) (hl : m.locked = true) :
    ∃ h1 : Heap,
      self.surfaceStep screen none h =
        some (true,
              unlockedLock { self with mSurfaceComponent := some { c with calls := c.calls + 1 } },
              none, h1) ∧
      h1.windows = h.windows ∧
      ((c.yields c.calls = Created.null ∧ h1.nextObj = h.nextObj ∧
          h1.deleteLater = h.deleteLater ++ (QMap.values self.surfaces).map (fun s => s.id)) ∨
       (c.yields c.calls = Created.other ∧ h1.nextObj = h.nextObj + 1 ∧
          h1.deleteLater = h.deleteLater ++ [h.nextObj] ++
            (QMap.values self.surfaces).map (fun s => s.id))) := by
  cases hyc : c.yields c.calls with
  | surface => exact absurd hyc hy
  | null =>
    refine ⟨{ h with
                deleteLater := h.deleteLater ++
                  (QMap.values self.surfaces).map (fun s => s.id) }, ?_, rfl, Or.inl ⟨rfl, rfl, rfl⟩⟩
    have hu := unlock_locked
      { self with mSurfaceComponent := some { c with calls := c.calls + 1 } } h m hm hl
    simp only [WlSessionLock.surfaceStep, hc, hcomp, QQmlComponent.create, hyc,
      CreatedObject.asSurface, hu]
    simp
  | other =>
    refine ⟨{ h with
                nextObj := h.nextObj + 1
                deleteLater := h.deleteLater ++ [h.nextObj] ++
                  (QMap.values self.surfaces).map (fun s => s.id) }, ?_, rfl,
      Or.inr ⟨rfl, rfl, rfl⟩⟩
    have hu := unlock_locked
      { self with mSurfaceComponent := some { c with calls := c.calls + 1 } }
      (Heap.scheduleDelete { h with nextObj := h.nextObj + 1 } h.nextObj) m hm hl
    simp only [WlSessionLock.surfaceStep, hc, hcomp, QQmlComponent.create, hyc,
      CreatedObject.asSurface, hu]
    simp [Heap.scheduleDelete]

/-! ## Session lock: the surface loop with a valid factory -/

theorem showAll_value (self : WlSessionLock) (k : Nat) :
    QMap.value self.showAll.surfaces k =
      (QMap.value self.surfaces k).map WlSessionLockSurface.show := by
  simp only [WlSessionLock.showAll]
  exact QMap.value_map WlSessionLockSurface.show self.surfaces k

theorem value_none_of_not_contains {α : Type} (m : QMap α) (k : Nat)
    (hc : QMap.contains m k = false) : QMap.value m k = none := by
  rw [QMap.contains_eq_isSome] at hc
  cases hv : QMap.value m k with
  | none => rfl
  | some v => simp [hv] at hc

theorem surfaceLoop_valid (rest : List Nat) :
    ∀ (self : WlSessionLock) (h : Heap) (c : QQmlComponent),
      self.mSurfaceComponent = some c → (∀ k, c.yields k = Created.surface) →
      QMap.Sorted self.surfaces →
      ∃ (self1 : WlSessionLock) (h1 : Heap),
        self.surfaceLoop rest none h = some (self1, none, h1) ∧
        (self1.id = self.id ∧ self1.manager = self.manager ∧
          self1.lockTarget = self.lockTarget ∧
          self1.lockStateChanged = self.lockStateChanged ∧
          ∃ c1, self1.mSurfaceComponent = some c1 ∧ c1.yields = c.yields ∧ c1.id = c.id) ∧
        QMap.Sorted self1.surfaces ∧
        (h1.deleteLater = h.deleteLater ∧ h.nextObj ≤ h1.nextObj ∧
          h.windows.length ≤ h1.windows.length ∧
          ∀ i, i < h.windows.length → h1.windows[i]? = h.windows[i]?) ∧
        (∀ k, (QMap.value self1.surfaces k).isSome =
          ((QMap.value self.surfaces k).isSome || decide (k ∈ rest))) ∧
        (∀ k s, QMap.value self.surfaces k = some s →
          QMap.value self1.surfaces k =
            some { s with showCalls := s.showCalls + rest.length }) ∧
        (∀ k, k ∈ rest → QMap.value self.surfaces k = none →
          ∃ s, QMap.value self1.surfaces k = some s ∧
            h.nextObj ≤ s.id ∧ s.id < h1.nextObj ∧ s.parent = some self.id ∧
            s.mScreen = some k ∧ 0 < s.showCalls ∧
            ∃ w, s.window = some w ∧ h.windows.length ≤ w ∧ w < h1.windows.length) ∧
        ((∀ k s, QMap.value self.surfaces k = some s → s.id < h.nextObj) →
          (∀ k s, QMap.value self1.surfaces k = some s → s.id < h1.nextObj) ∧
          ((∀ k1 k2 s1 s2, QMap.value self.surfaces k1 = some s1 →
              QMap.value self.surfaces k2 = some s2 → s1.id = s2.id → k1 = k2) →
            ∀ k1 k2 s1 s2, QMap.value self1.surfaces k1 = some s1 →
              QMap.value self1.surfaces k2 = some s2 → s1.id = s2.id → k1 = k2)) := by
  induction rest with
  | nil =>
    intro self h c hcomp _ hsorted
    refine ⟨self, h, rfl, ⟨rfl, rfl, rfl, rfl, c, hcomp, rfl, rfl⟩, hsorted,
      ⟨rfl, Nat.le_refl _, Nat.le_refl _, fun _ _ => rfl⟩, ?_, ?_, ?_, ?_⟩
    · intro k
      simp
    · intro k s hs
      simpa using hs
    · intro k hk
      simp at hk
    · intro hb
      exact ⟨hb, fun hinj => hinj⟩
  | cons screen rest ih =>
    intro self h c hcomp hvalid hsorted
    cases hcont : QMap.contains self.surfaces screen with
    | true =>
      have hsome : (QMap.value self.surfaces screen).isSome = true := by
        rw [← QMap.contains_eq_isSome]
        exact hcont
      obtain ⟨self1, h1, hloop, ⟨hid, hmgr, htgt, hsig, hc1⟩, hsrt, hheap, hkeys, hkept, hfresh,
        hids⟩ := ih self.showAll h c hcomp hvalid (QMap.sorted_map _ _ hsorted)
      refine ⟨self1, h1, ?_, ⟨hid, hmgr, htgt, hsig, hc1⟩, hsrt, hheap, ?_, ?_, ?_, ?_⟩
      · simp only [WlSessionLock.surfaceLoop, surfaceStep_present screen self none h hcont]
        exact hloop
      · intro k
        rw [hkeys k, showAll_value]
        by_cases hk : k = screen
        · subst hk
          simp [hsome]
        · simp [hk]
      · intro k s hs
        have := hkept k s.show (by rw [showAll_value, hs]; rfl)
        rw [this]
        simp only [WlSessionLockSurface.show, List.length_cons]
        congr 2
        omega
      · intro k hk hnone
        have hks : k ≠ screen := by
          intro he
          subst he
          simp [hnone] at hsome
        have hkr : k ∈ rest := by
          rcases List.mem_cons.mp hk with h1 | h1
          · exact absurd h1 hks
          · exact h1
        exact hfresh k hkr (by rw [showAll_value, hnone]; rfl)
      · intro hb
        have hb1 : ∀ k s, QMap.value self.showAll.surfaces k = some s → s.id < h.nextObj := by
          intro k s hs
          rw [showAll_value] at hs
          cases hv : QMap.value self.surfaces k with
          | none => simp [hv] at hs
          | some s0 =>
            simp only [hv, Option.map_some', Option.some.injEq] at hs
            subst hs
            exact hb k s0 hv
        refine ⟨(hids hb1).1, ?_⟩
        intro hinj
        apply (hids hb1).2
        intro k1 k2 s1 s2 hs1 hs2 he
        rw [showAll_value] at hs1 hs2
        cases hv1 : QMap.value self.surfaces k1 with
        | none => simp [hv1] at hs1
        | some t1 =>
          cases hv2 : QMap.value self.surfaces k2 with
          | none => simp [hv2] at hs2
          | some t2 =>
            simp only [hv1, hv2, Option.map_some', Option.some.injEq] at hs1 hs2
            subst hs1 hs2
            exact hinj k1 k2 t1 t2 hv1 hv2 he
    | false =>
      have hnone : QMap.value self.surfaces screen = none :=
        value_none_of_not_contains _ _ hcont
      have hstep := surfaceStep_create screen self h c hcomp (hvalid _) hcont
      have hval : ∀ k,
          QMap.value (WlSessionLock.showAll
              { self with
                  mSurfaceComponent := some { c with calls := c.calls + 1 }
                  surfaces := QMap.insert self.surfaces screen
                    (freshSurface self.id screen h) }).surfaces k =
            if k = screen then some (freshSurface self.id screen h).show
            else (QMap.value self.surfaces k).map WlSessionLockSurface.show := by
        intro k
        rw [showAll_value]
        simp only [QMap.value_insert]
        by_cases hk : k = screen <;> simp [hk]
      obtain ⟨self1, h1, hloop, ⟨hid, hmgr, htgt, hsig, hc1⟩, hsrt, hheap, hkeys, hkept, hfresh,
        hids⟩ := ih
          (WlSessionLock.showAll
              { self with
                  mSurfaceComponent := some { c with calls := c.calls + 1 }
                  surfaces := QMap.insert self.surfaces screen
                    (freshSurface self.id screen h) })
          (freshSurfaceHeap screen h) { c with calls := c.calls + 1 } rfl hvalid
          (QMap.sorted_map _ _ (QMap.sorted_insert _ hsorted screen _))
      obtain ⟨hdel, hnext, hwlen, hwin⟩ := hheap
      have hnext0 : h.nextObj + 1 ≤ h1.nextObj := hnext
      have hwlen0 : h.windows.length + 1 ≤ h1.windows.length := by
        simpa [freshSurfaceHeap] using hwlen
      refine ⟨self1, h1, ?_, ⟨hid, hmgr, htgt, hsig, ?_⟩, hsrt, ⟨hdel, ?_, ?_, ?_⟩, ?_, ?_, ?_,
        ?_⟩
      · simp only [WlSessionLock.surfaceLoop, hstep]
        exact hloop
      · obtain ⟨c1, h1c, h2c, h3c⟩ := hc1
        exact ⟨c1, h1c, h2c, h3c⟩
      · omega
      · omega
      · intro i hi
        rw [hwin i (by simp [freshSurfaceHeap]; omega)]
        simp [freshSurfaceHeap, List.getElem?_append_left hi]
      · intro k
        rw [hkeys k, hval k]
        by_cases hk : k = screen
        · subst hk
          simp
        · simp [hk]
      · intro k s hs
        have hks : k ≠ screen := by
          intro he
          subst he
          simp [hnone] at hs
        have := hkept k s.show (by rw [hval k]; simp [hks, hs])
        rw [this]
        simp only [WlSessionLockSurface.show, List.length_cons]
        congr 2
        omega
      · intro k hk hkn
        by_cases hks : k = screen
        · subst hks
          have := hkept k (freshSurface self.id k h).show (by rw [hval k]; simp)
          refine ⟨_, this, ?_, ?_, ?_, ?_, ?_, h.windows.length, ?_, ?_, ?_⟩
          · simp [freshSurface, WlSessionLockSurface.show]
          · simp only [freshSurface, WlSessionLockSurface.show]
            omega
          · simp [freshSurface, WlSessionLockSurface.show]
          · simp [freshSurface, WlSessionLockSurface.show]
          · simp [freshSurface, WlSessionLockSurface.show]
          · simp [freshSurface, WlSessionLockSurface.show]
          · exact Nat.le_refl _
          · omega
        · have hkr : k ∈ rest := by
            rcases List.mem_cons.mp hk with h1 | h1
            · exact absurd h1 hks
            · exact h1
          obtain ⟨s, hs, hb1, hb2, hp, hsc, hsh, w, hw, hw1, hw2⟩ :=
            hfresh k hkr (by rw [hval k]; simp [hks, hkn])
          refine ⟨s, hs, ?_, hb2, hp, hsc, hsh, w, hw, ?_, hw2⟩
          · simp only [freshSurfaceHeap] at hb1
            omega
          · simp only [freshSurfaceHeap, List.length_append, List.length_singleton] at hw1
            omega
      · intro hb
        have hb1 : ∀ k s,
            QMap.value (WlSessionLock.showAll
              { self with
                  mSurfaceComponent := some { c with calls := c.calls + 1 }
                  surfaces := QMap.insert self.surfaces screen
                    (freshSurface self.id screen h) }).surfaces k = some s →
            s.id < (freshSurfaceHeap screen h).nextObj := by
          intro k s hs
          rw [hval k] at hs
          by_cases hk : k = screen
          · simp only [hk, if_true, Option.some.injEq] at hs
            subst hs
            simp [freshSurface, freshSurfaceHeap, WlSessionLockSurface.show]
          · simp only [hk, if_false] at hs
            cases hv : QMap.value self.surfaces k with
            | none => simp [hv] at hs
            | some s0 =>
              simp only [hv, Option.map_some', Option.some.injEq] at hs
              subst hs
              have := hb k s0 hv
              simp only [freshSurfaceHeap, WlSessionLockSurface.show]
              omega
        refine ⟨(hids hb1).1, ?_⟩
        intro hinj
        apply (hids hb1).2
        intro k1 k2 s1 s2 hs1 hs2 he
        rw [hval k1] at hs1
        rw [hval k2] at hs2
        by_cases hk1 : k1 = screen
        · by_cases hk2 : k2 = screen
          · rw [hk1, hk2]
          · simp only [hk1, if_true, Option.some.injEq] at hs1
            simp only [hk2, if_false] at hs2
            cases hv2 : QMap.value self.surfaces k2 with
            | none => simp [hv2] at hs2
            | some t2 =>
              simp only [hv2, Option.map_some', Option.some.injEq] at hs2
              subst hs1 hs2
              have := hb k2 t2 hv2
              simp only [freshSurface, WlSessionLockSurface.show] at he
              omega
        · simp only [hk1, if_false] at hs1
          cases hv1 : QMap.value self.surfaces k1 with
          | none => simp [hv1] at hs1
          | some t1 =>
            simp only [hv1, Option.map_some', Option.some.injEq] at hs1
            by_cases hk2 : k2 = screen
            · simp only [hk2, if_true, Option.some.injEq] at hs2
              subst hs1 hs2
              have := hb k1 t1 hv1
              simp only [freshSurface, WlSessionLockSurface.show] at he
              omega
            · simp only [hk2, if_false] at hs2
              cases hv2 : QMap.value self.surfaces k2 with
              | none => simp [hv2] at hs2
              | some t2 =>
                simp only [hv2, Option.map_some', Option.some.injEq] at hs2
                subst hs1 hs2
                exact hinj k1 k2 t1 t2 hv1 hv2 he

theorem updateSurfaces_valid (screens : List Nat) (self : WlSessionLock) (h : Heap)
    (m : SessionLockManager) (c : QQmlComponent)
    (hm : self.manager = some m) (hl : m.locked = true)
    (hcomp : self.mSurfaceComponent = some c) (hvalid : ∀ k, c.yields k = Created.surface)
    (hsorted : QMap.Sorted self.surfaces) :
    ∃ (self1 : WlSessionLock) (h1 : Heap),
      self.updateSurfaces screens none h = some (self1, none, h1) ∧
      (self1.id = self.id ∧ self1.manager = self.manager ∧
        self1.lockTarget = self.lockTarget ∧
        self1.lockStateChanged = self.lockStateChanged ∧
        ∃ c1, self1.mSurfaceComponent = some c1 ∧ c1.yields = c.yields ∧ c1.id = c.id) ∧
      QMap.Sorted self1.surfaces ∧
      (h1.deleteLater =
          h.deleteLater ++
            (self.surfaces.filter (fun e => !screens.contains e.1)).map (fun e => e.2.id) ∧
        h.nextObj ≤ h1.nextObj ∧ h.windows.length ≤ h1.windows.length ∧
        ∀ i, i < h.windows.length → h1.windows[i]? = h.windows[i]?) ∧
      (∀ k, (QMap.value self1.surfaces k).isSome = decide (k ∈ screens)) ∧
      (∀ k s, k ∈ screens → QMap.value self.surfaces k = some s →
        QMap.value self1.surfaces k =
          some { s with showCalls := s.showCalls + screens.length }) ∧
      (∀ k, k ∈ screens → QMap.value self.surfaces k = none →
        ∃ s, QMap.value self1.surfaces k = some s ∧
          h.nextObj ≤ s.id ∧ s.id < h1.nextObj ∧ s.parent = some self.id ∧
          s.mScreen = some k ∧ 0 < s.showCalls ∧
          ∃ w, s.window = some w ∧ h.windows.length ≤ w ∧ w < h1.windows.length) ∧
      ((∀ k s, QMap.value self.surfaces k = some s → s.id < h.nextObj) →
        (∀ k s, QMap.value self1.surfaces k = some s → s.id < h1.nextObj) ∧
        ((∀ k1 k2 s1 s2, QMap.value self.surfaces k1 = some s1 →
            QMap.value self.surfaces k2 = some s2 → s1.id = s2.id → k1 = k2) →
          ∀ k1 k2 s1 s2, QMap.value self1.surfaces k1 = some s1 →
            QMap.value self1.surfaces k2 = some s2 → s1.id = s2.id → k1 = k2)) := by
  have hfilt : ∀ k,
      QMap.value (self.surfaces.filter (fun e => screens.contains e.1)) k =
        if screens.contains k then QMap.value self.surfaces k else none :=
    fun k => QMap.value_filter (fun k => screens.contains k) self.surfaces k
  obtain ⟨self1, h1, hloop, hframe, hsrt, ⟨hdel, hnext, hwlen, hwin⟩, hkeys, hkept, hfresh,
    hids⟩ := surfaceLoop_valid screens
      { self with surfaces := self.surfaces.filter (fun e => screens.contains e.1) }
      { h with
          deleteLater := h.deleteLater ++
            (self.surfaces.filter (fun e => !screens.contains e.1)).map (fun e => e.2.id) }
      c hcomp hvalid (QMap.sorted_filter _ _ hsorted)
  refine ⟨self1, h1, ?_, hframe, hsrt, ⟨hdel, hnext, hwlen, hwin⟩, ?_, ?_, ?_, ?_⟩
  · simp only [WlSessionLock.updateSurfaces, hm, SessionLockManager.isLocked, hl, if_true,
      removeStale_self, hcomp, Option.isNone_some, Bool.false_eq_true, if_false]
    rw [hm, hcomp] at hloop
    exact hloop
  · intro k
    rw [hkeys k]
    simp only [hfilt k]
    by_cases hk : k ∈ screens <;> simp [hk]
  · intro k s hk hs
    apply hkept k s
    simp only [hfilt k]
    simp [hk, hs]
  · intro k hk hs
    apply hfresh k hk
    simp only [hfilt k]
    simp [hs]
  · intro hb
    have hb0 : ∀ k s,
        QMap.value (self.surfaces.filter (fun e => screens.contains e.1)) k = some s →
        QMap.value self.surfaces k = some s := by
      intro k s hs
      rw [hfilt k] at hs
      by_cases hk : k ∈ screens
      · have hk1 : screens.contains k = true := by simpa using hk
        rw [if_pos hk1] at hs
        exact hs
      · simp [hk] at hs
    have hb1 := hids (fun k s hs => hb k s (hb0 k s hs))
    refine ⟨hb1.1, ?_⟩
    intro hinj
    exact hb1.2 (fun k1 k2 s1 s2 hs1 hs2 he =>
      hinj k1 k2 s1 s2 (hb0 k1 s1 hs1) (hb0 k2 s2 hs2) he)

theorem covers_of_values (self : WlSessionLock) (screens : List Nat)
    (hsorted : QMap.Sorted self.surfaces)
    (hkeys : ∀ k, (QMap.value self.surfaces k).isSome = decide (k ∈ screens))
    (hshown : ∀ k s, QMap.value self.surfaces k = some s → 0 < s.showCalls) :
    self.Covers screens := by
  constructor
  · intro k
    rw [QMap.count_key _ hsorted k, hkeys k]
    simp
  · intro e he
    exact hshown e.1 e.2 (QMap.value_of_mem _ hsorted e.1 e.2 he)

theorem updateSurfaces_covers (screens : List Nat) (self : WlSessionLock) (h : Heap)
    (m : SessionLockManager) (c : QQmlComponent)
    (hm : self.manager = some m) (hl : m.locked = true)
    (hcomp : self.mSurfaceComponent = some c) (hvalid : ∀ k, c.yields k = Created.surface)
    (hsorted : QMap.Sorted self.surfaces) :
    ∃ (self1 : WlSessionLock) (h1 : Heap) (c1 : QQmlComponent),
      self.updateSurfaces screens none h = some (self1, none, h1) ∧
      self1.manager = some m ∧ self1.lockTarget = self.lockTarget ∧
      self1.lockStateChanged = self.lockStateChanged ∧
      self1.mSurfaceComponent = some c1 ∧ (∀ k, c1.yields k = Created.surface) ∧
      QMap.Sorted self1.surfaces ∧ self1.Covers screens := by
  obtain ⟨self1, h1, hrun, ⟨_, hmgr, htgt, hsig, c1, hc1, hy1, _⟩, hsrt, _, hkeys, hkept,
    hfresh, _⟩ := updateSurfaces_valid screens self h m c hm hl hcomp hvalid hsorted
  refine ⟨self1, h1, c1, hrun, hmgr.trans hm, htgt, hsig, hc1, ?_, hsrt, ?_⟩
  · intro k
    rw [hy1]
    exact hvalid k
  · apply covers_of_values self1 screens hsrt hkeys
    intro k s hs
    have hk : k ∈ screens := by
      have := hkeys k
      rw [hs] at this
      simpa using this.symm
    cases hv : QMap.value self.surfaces k with
    | none =>
      obtain ⟨s1, hs1, _, _, _, _, hshow, _⟩ := hfresh k hk hv
      rw [hs] at hs1
      simp only [Option.some.injEq] at hs1
      rw [hs1]
      exact hshow
    | some s0 =>
      have := hkept k s0 hk hv
      rw [hs] at this
      simp only [Option.some.injEq] at this
      rw [this]
      have hpos : 0 < screens.length := List.length_pos_of_mem hk
      simp only
      omega

theorem screensChangedRun_covers (later : List (List Nat)) :
    ∀ (screens : List Nat) (self : WlSessionLock) (h : Heap)
      (m : SessionLockManager) (c : QQmlComponent),
      self.manager = some m → m.locked = true →
      self.mSurfaceComponent = some c → (∀ k, c.yields k = Created.surface) →
      QMap.Sorted self.surfaces → self.Covers screens →
      ∃ (self2 : WlSessionLock) (h2 : Heap),
        self.screensChangedRun later h = some (self2, h2) ∧
        self2.isLocked = true ∧ self2.lockStateChanged = self.lockStateChanged ∧
        self2.Covers ((later.getLast?).getD screens) := by
  induction later with
  | nil =>
    intro screens self h m c hm hl _ _ _ hcov
    refine ⟨self, h, rfl, ?_, rfl, by simpa using hcov⟩
    simp [WlSessionLock.isLocked, hm, SessionLockManager.isLocked, hl]
  | cons next later ih =>
    intro screens self h m c hm hl hcomp hvalid hsorted _
    obtain ⟨self1, h1, c1, hrun, hm1, _, hsig1, hc1, hv1, hs1, hcov1⟩ :=
      updateSurfaces_covers next self h m c hm hl hcomp hvalid hsorted
    obtain ⟨self2, h2, hrun2, hl2, hsig2, hcov2⟩ :=
      ih next self1 h1 m c1 hm1 hl hc1 hv1 hs1 hcov1
    refine ⟨self2, h2, ?_, hl2, hsig2.trans hsig1, ?_⟩
    · simp only [WlSessionLock.screensChangedRun, WlSessionLock.onScreensChanged, hrun,
        Option.map_some']
      exact hrun2
    · cases later with
      | nil => simpa using hcov2
      | cons a rest => simpa [List.getLast?_cons_cons] using hcov2

/-! ## Session lock: the surface loop with a factory that fails -/

theorem surfaceLoop_reject (rest : List Nat) :
    ∀ (self : WlSessionLock) (h : Heap) (c : QQmlComponent) (m : SessionLockManager)
      (j n0 : Nat),
      self.mSurfaceComponent = some c → self.manager = some m → m.locked = true →
      rest.Nodup → (∀ k ∈ rest, QMap.contains self.surfaces k = false) →
      j < rest.length → c.yields (c.calls + j) ≠ Created.surface →
      (∀ i, n0 ≤ i → i < h.nextObj →
        i ∈ h.deleteLater ∨ ∃ e ∈ self.surfaces, e.2.id = i) →
      ∃ (self1 : WlSessionLock) (h1 : Heap),
        self.surfaceLoop rest none h = some (self1, none, h1) ∧
        self1.surfaces = [] ∧ self1.manager = some { locked := false } ∧
        self1.lockTarget = false ∧
        self1.lockStateChanged = self.lockStateChanged + 1 ∧
        (∀ i, n0 ≤ i → i < h1.nextObj → i ∈ h1.deleteLater) := by
  induction rest with
  | nil =>
    intro self h c m j n0 _ _ _ _ _ hj
    simp at hj
  | cons screen rest ih =>
    intro self h c m j n0 hcomp hm hl hnd hnc hj hbad htrack
    rw [List.nodup_cons] at hnd
    have hcont : QMap.contains self.surfaces screen = false := hnc screen (by simp)
    by_cases hy : c.yields c.calls = Created.surface
    · have hstep := surfaceStep_create screen self h c hcomp hy hcont
      have hj0 : j ≠ 0 := by
        intro h0
        rw [h0] at hbad
        exact hbad hy
      obtain ⟨j1, rfl⟩ := Nat.exists_eq_succ_of_ne_zero hj0
      have hnc1 : ∀ k ∈ rest,
          QMap.contains (WlSessionLock.showAll
              { self with
                  mSurfaceComponent := some { c with calls := c.calls + 1 }
                  surfaces := QMap.insert self.surfaces screen
                    (freshSurface self.id screen h) }).surfaces k = false := by
        intro k hk
        have hks : k ≠ screen := fun he => hnd.1 (he ▸ hk)
        have hv := value_none_of_not_contains _ _ (hnc k (List.mem_cons_of_mem _ hk))
        rw [QMap.contains_eq_isSome, showAll_value]
        simp [QMap.value_insert, hks, hv]
      have htrack1 : ∀ i, n0 ≤ i → i < (freshSurfaceHeap screen h).nextObj →
          i ∈ (freshSurfaceHeap screen h).deleteLater ∨
          ∃ e ∈ (WlSessionLock.showAll
              { self with
                  mSurfaceComponent := some { c with calls := c.calls + 1 }
                  surfaces := QMap.insert self.surfaces screen
                    (freshSurface self.id screen h) }).surfaces, e.2.id = i := by
        intro i hi1 hi2
        simp only [freshSurfaceHeap] at hi2
        by_cases hi : i < h.nextObj
        · rcases htrack i hi1 hi with hd | ⟨e, he, hei⟩
          · exact Or.inl hd
          · right
            refine ⟨(e.1, e.2.show), ?_, hei⟩
            simp only [WlSessionLock.showAll, List.mem_map]
            exact ⟨e, QMap.mem_insert_of_ne _ _ _ e he
              (QMap.ne_of_not_contains _ _ hcont e he), rfl⟩
        · right
          refine ⟨(screen, (freshSurface self.id screen h).show), ?_, ?_⟩
          · simp only [WlSessionLock.showAll, List.mem_map]
            exact ⟨(screen, freshSurface self.id screen h), QMap.mem_insert_self _ _ _, rfl⟩
          · simp only [freshSurface, WlSessionLockSurface.show]
            omega
      obtain ⟨self1, h1, hloop, hs1, hm1, ht1, hsig1, htr1⟩ :=
        ih (WlSessionLock.showAll
              { self with
                  mSurfaceComponent := some { c with calls := c.calls + 1 }
                  surfaces := QMap.insert self.surfaces screen
                    (freshSurface self.id screen h) })
          (freshSurfaceHeap screen h) { c with calls := c.calls + 1 } m j1 n0 rfl hm hl hnd.2
          hnc1 (by simpa using hj)
          (by
            have : c.calls + 1 + j1 = c.calls + (j1 + 1) := by omega
            simp only [this]
            exact hbad)
          htrack1
      refine ⟨self1, h1, ?_, hs1, hm1, ht1, hsig1, htr1⟩
      simp only [WlSessionLock.surfaceLoop, hstep]
      exact hloop
    · obtain ⟨h1, hstep, _, hcase⟩ := surfaceStep_reject screen self h c m hcomp hy hcont hm hl
      refine ⟨unlockedLock
          { self with mSurfaceComponent := some { c with calls := c.calls + 1 } },
        h1, ?_, rfl, rfl, rfl, rfl, ?_⟩
      · simp only [WlSessionLock.surfaceLoop, hstep]
      · intro i hi1 hi2
        rcases hcase with ⟨_, hn, hd⟩ | ⟨_, hn, hd⟩
        · rw [hn] at hi2
          rw [hd]
          rcases htrack i hi1 hi2 with hdel | ⟨e, he, hei⟩
          · exact List.mem_append_left _ hdel
          · apply List.mem_append_right
            simp only [QMap.values, List.map_map, List.mem_map]
            exact ⟨e, he, hei⟩
        · rw [hn] at hi2
          rw [hd]
          by_cases hi : i < h.nextObj
          · rcases htrack i hi1 hi with hdel | ⟨e, he, hei⟩
            · exact List.mem_append_left _ (List.mem_append_left _ hdel)
            · apply List.mem_append_right
              simp only [QMap.values, List.map_map, List.mem_map]
              exact ⟨e, he, hei⟩
          · have : i = h.nextObj := by omega
            rw [this]
            exact List.mem_append_left _ (List.mem_append_right _ (by simp))

/-! ## Session lock: reconciliation -/

/-- C5: while the native lock is held and the factory always yields a lock
surface, over a mapping whose surfaces are distinct objects allocated before,
`onScreensChanged` (that is, `updateSurfaces()`) returns; afterwards
the mapping has a surface for exactly the enumerated screens; `deleteLater`
has been called on exactly the surfaces whose screen is not enumerated; the
surface of a still enumerated screen is the same object, with
`screens.length` more `show()` calls; a screen that had no surface has a
surface with an identity and a window that did not exist before the call
(distinct from every surface that existed, and from one another); the lock
itself is otherwise unchanged. -/
theorem onScreensChanged_reconciles (screens : List Nat) (self : WlSessionLock) (h : Heap)
    (m : SessionLockManager) (c : QQmlComponent)
    (hm : self.manager = some m) (hl : m.locked = true)
    (hcomp : self.mSurfaceComponent = some c) (hvalid : ∀ k, c.yields k = Created.surface)
    (hsorted : QMap.Sorted self.surfaces)
    (halloc : ∀ k s, QMap.value self.surfaces k = some s → s.id < h.nextObj)
    (hdistinct : ∀ k1 k2 s1 s2, QMap.value self.surfaces k1 = some s1 →
      QMap.value self.surfaces k2 = some s2 → s1.id = s2.id → k1 = k2) :
    ∃ (self1 : WlSessionLock) (h1 : Heap),
      self.onScreensChanged screens h = some (self1, h1) ∧
      (∀ k, (QMap.value self1.surfaces k).isSome = decide (k ∈ screens)) ∧
      QMap.Sorted self1.surfaces ∧
      h1.deleteLater =
        h.deleteLater ++
          (self.surfaces.filter (fun e => !screens.contains e.1)).map (fun e => e.2.id) ∧
      (∀ k s, k ∈ screens → QMap.value self.surfaces k = some s →
        QMap.value self1.surfaces k =
          some { s with showCalls := s.showCalls + screens.length }) ∧
      (∀ k, k ∈ screens → QMap.value self.surfaces k = none →
        ∃ s, QMap.value self1.surfaces k = some s ∧
          h.nextObj ≤ s.id ∧ s.id < h1.nextObj ∧ s.parent = some self.id ∧
          s.mScreen = some k ∧
          ∃ w, s.window = some w ∧ h.windows.length ≤ w ∧ w < h1.windows.length) ∧
      (∀ k1 k2 s1 s2, QMap.value self1.surfaces k1 = some s1 →
        QMap.value self1.surfaces k2 = some s2 → s1.id = s2.id → k1 = k2) ∧
      (∀ k s, QMap.value self1.surfaces k = some s → s.id < h1.nextObj) ∧
      self1.manager = self.manager ∧ self1.lockTarget = self.lockTarget ∧
      self1.lockStateChanged = self.lockStateChanged := by
  obtain ⟨self1, h1, hrun, ⟨_, hmgr, htgt, hsig, _⟩, hsrt, ⟨hdel, _, _, _⟩, hkeys, hkept,
    hfresh, hids⟩ := updateSurfaces_valid screens self h m c hm hl hcomp hvalid hsorted
  refine ⟨self1, h1, ?_, hkeys, hsrt, hdel, hkept, ?_, (hids halloc).2 hdistinct,
    (hids halloc).1, hmgr, htgt, hsig⟩
  · simp [WlSessionLock.onScreensChanged, hrun]
  · intro k hk hnone
    obtain ⟨s, hs, hb1, hb2, hp, hsc, _, hw⟩ := hfresh k hk hnone
    exact ⟨s, hs, hb1, hb2, hp, hsc, hw⟩

theorem lockedTwo_sorted : QMap.Sorted lockedTwo.surfaces := by
  simp [QMap.Sorted, lockedTwo]

theorem lockedOne_sorted : QMap.Sorted lockedOne.surfaces := by
  simp [QMap.Sorted, lockedOne]

theorem lockedTwo_values (k : Nat) (s : WlSessionLockSurface)
    (hs : QMap.value lockedTwo.surfaces k = some s) : s.id = 10 ∧ k = 1 ∨ s.id = 11 ∧ k = 2 := by
  have hmem := QMap.mem_of_value _ _ _ hs
  simp only [lockedTwo, List.mem_cons, Prod.mk.injEq, List.mem_nil_iff, or_false] at hmem
  rcases hmem with ⟨rfl, rfl⟩ | ⟨rfl, rfl⟩
  · exact Or.inl ⟨rfl, rfl⟩
  · exact Or.inr ⟨rfl, rfl⟩

theorem lockedOne_values (k : Nat) (s : WlSessionLockSurface)
    (hs : QMap.value lockedOne.surfaces k = some s) : s.id = 10 ∧ k = 1 := by
  have hmem := QMap.mem_of_value _ _ _ hs
  simp only [lockedOne, List.mem_cons, Prod.mk.injEq, List.mem_nil_iff, or_false] at hmem
  rcases hmem with ⟨rfl, rfl⟩
  exact ⟨rfl, rfl⟩

/-- Witness of C5: with surfaces 10 and 11 on screens 1 and 2, the enumeration
[1] leaves surface 10 and schedules surface 11 for destruction; the
enumeration [1, 2] then gives screen 2 a surface that is not surface 11. -/
theorem onScreensChanged_reconciles_witness :
    (∃ (self1 : WlSessionLock) (h1 : Heap),
        lockedTwo.onScreensChanged [1] lockedTwoHeap = some (self1, h1) ∧
        (∀ k, (QMap.value self1.surfaces k).isSome = decide (k ∈ [1])) ∧
        h1.deleteLater = [11] ∧
        self1.surfaces = lockedOne.surfaces ∧ h1 = lockedOneHeap) ∧
    (∃ (self1 : WlSessionLock) (h1 : Heap) (s : WlSessionLockSurface),
        lockedOne.onScreensChanged [1, 2] lockedOneHeap = some (self1, h1) ∧
        QMap.value self1.surfaces 2 = some s ∧ 12 ≤ s.id ∧ s.id ≠ 11) := by
  constructor
  · obtain ⟨self1, h1, hrun, hkeys, _, hdel, _⟩ :=
      onScreensChanged_reconciles [1] lockedTwo lockedTwoHeap { locked := true }
        { surfaceFactory with calls := 2 } rfl rfl rfl (fun _ => rfl) lockedTwo_sorted
        (fun k s hs => by
          rcases lockedTwo_values k s hs with ⟨h1, _⟩ | ⟨h1, _⟩ <;> simp [h1, lockedTwoHeap])
        (fun k1 k2 s1 s2 hs1 hs2 he => by
          rcases lockedTwo_values k1 s1 hs1 with ⟨h1, h2⟩ | ⟨h1, h2⟩ <;>
            rcases lockedTwo_values k2 s2 hs2 with ⟨h3, h4⟩ | ⟨h3, h4⟩ <;> omega)
    have heval : lockedTwo.onScreensChanged [1] lockedTwoHeap =
        some (lockedOne, lockedOneHeap) := rfl
    rw [hrun] at heval
    simp only [Option.some.injEq, Prod.mk.injEq] at heval
    refine ⟨self1, h1, hrun, hkeys, ?_, ?_, heval.2⟩
    · rw [hdel]
      rfl
    · rw [heval.1]
  · obtain ⟨self1, h1, hrun, _, _, _, _, hfresh, _⟩ :=
      onScreensChanged_reconciles [1, 2] lockedOne lockedOneHeap { locked := true }
        { surfaceFactory with calls := 2 } rfl rfl rfl (fun _ => rfl) lockedOne_sorted
        (fun k s hs => by
          rcases lockedOne_values k s hs with ⟨h1, _⟩
          simp [h1, lockedOneHeap, lockedTwoHeap])
        (fun k1 k2 s1 s2 hs1 hs2 he => by
          rcases lockedOne_values k1 s1 hs1 with ⟨_, h2⟩
          rcases lockedOne_values k2 s2 hs2 with ⟨_, h4⟩
          omega)
    obtain ⟨s, hs, hb, _⟩ := hfresh 2 (by simp) rfl
    refine ⟨self1, h1, s, hrun, hs, hb, ?_⟩
    have : (12 : Nat) ≤ s.id := hb
    omega

/-- C2: on a lock that has a native lock manager and is not locked, with a
factory that always yields a lock surface, `setLocked(true)` with the native
lock granted returns with `isLocked()` true and a mapping that holds exactly
one surface for each enumerated screen, none for any other screen, and only
surfaces on which `show()` has been called; after any run of later
`onScreensChanged` calls the lock is still held and the same is true for the
enumeration of the last call. -/
theorem setLocked_covers_screens (screens : List Nat) (later : List (List Nat))
    (self : WlSessionLock) (h : Heap) (m : SessionLockManager) (c : QQmlComponent)
    (hm : self.manager = some m) (hun : m.locked = false)
    (hcomp : self.mSurfaceComponent = some c) (hvalid : ∀ k, c.yields k = Created.surface)
    (hsorted : QMap.Sorted self.surfaces) :
    ∃ (self1 : WlSessionLock) (h1 : Heap) (self2 : WlSessionLock) (h2 : Heap),
      self.setLocked true screens true h = some (self1, h1) ∧
      self1.isLocked = true ∧ self1.Covers screens ∧
      self1.screensChangedRun later h1 = some (self2, h2) ∧
      self2.isLocked = true ∧ self2.Covers ((later.getLast?).getD screens) := by
  obtain ⟨self1, h1, c1, hrun, hm1, htgt, _, hc1, hv1, hs1, hcov1⟩ :=
    updateSurfaces_covers screens
      { self with lockTarget := true, manager := some { m with locked := true } } h
      { m with locked := true } c rfl rfl hcomp hvalid hsorted
  obtain ⟨self2, h2, hrun2, hl2, _, hcov2⟩ :=
    screensChangedRun_covers later screens
      { self1 with lockStateChanged := self1.lockStateChanged + 1 } h1
      { m with locked := true } c1 hm1 rfl hc1 hv1 hs1 hcov1
  refine ⟨{ self1 with lockStateChanged := self1.lockStateChanged + 1 }, h1, self2, h2, ?_, ?_,
    hcov1, hrun2, hl2, hcov2⟩
  · have hil : self.isLocked = false := by
      simp [WlSessionLock.isLocked, hm, SessionLockManager.isLocked, hun]
    have htgt1 : self1.lockTarget = true := htgt
    simp [WlSessionLock.setLocked, hil, hm, SessionLockManager.lock, hrun, htgt1]
  · simp [WlSessionLock.isLocked, hm1, SessionLockManager.isLocked]

/-- Witness of C2: locking over screens 1 and 2 gives the two surfaces of
`lockedTwo`, both shown. -/
theorem setLocked_covers_screens_witness :
    idleLock.setLocked true [1, 2] true lockHeap = some (lockedTwo, lockedTwoHeap) ∧
      lockedTwo.Covers [1, 2] ∧ lockedTwo.surfaces.length = 2 := by
  obtain ⟨self1, h1, _, _, hset, _, hcov, _⟩ :=
    setLocked_covers_screens [1, 2] [] idleLock lockHeap { locked := false } surfaceFactory
      rfl rfl rfl (fun _ => rfl) (by simp [QMap.Sorted, idleLock])
  have heval : idleLock.setLocked true [1, 2] true lockHeap = some (lockedTwo, lockedTwoHeap) :=
    rfl
  rw [heval] at hset
  simp only [Option.some.injEq, Prod.mk.injEq] at hset
  rw [← hset.1] at hcov
  exact ⟨heval, hcov, rfl⟩

/-- C7: on a lock that has a native lock manager and is not locked, when the
native lock is not granted `setLocked(true)` returns the lock with the intent
false and everything else as it was (mapping, factory, number of
`lockStateChanged` emissions), the heap untouched (nothing created, nothing
destroyed), and `isLocked()` is false. -/
theorem setLocked_native_failure (screens : List Nat) (self : WlSessionLock) (h : Heap)
    (m : SessionLockManager) (hm : self.manager = some m) (hun : m.locked = false) :
    self.setLocked false screens true h = some ({ self with lockTarget := false }, h) ∧
      ({ self with lockTarget := false } : WlSessionLock).isLocked = false := by
  have hil : self.isLocked = false := by
    simp [WlSessionLock.isLocked, hm, SessionLockManager.isLocked, hun]
  constructor
  · simp [WlSessionLock.setLocked, hil, hm, SessionLockManager.lock,
      WlSessionLock.updateSurfaces, SessionLockManager.isLocked, hun]
  · simp [WlSessionLock.isLocked, hm, SessionLockManager.isLocked, hun]

/-- Witness of C7: the idle lock over screens 1 and 2, lock not granted. -/
theorem setLocked_native_failure_witness :
    idleLock.setLocked false [1, 2] true lockHeap = some (idleLock, lockHeap) ∧
      idleLock.isLocked = false :=
  setLocked_native_failure [1, 2] idleLock lockHeap { locked := false } rfl rfl

/-- C8: when `isLocked()` is false, `setLocked(false)` returns the lock and
the heap as they were: intent, mapping, native lock manager and the number of
`lockStateChanged` emissions are unchanged. -/
theorem setLocked_false_noop (granted : Bool) (screens : List Nat) (self : WlSessionLock)
    (h : Heap) (hun : self.isLocked = false) :
    self.setLocked granted screens false h = some (self, h) := by
  simp [WlSessionLock.setLocked, hun]

/-- Witness of C8: with and without a native lock manager. -/
theorem setLocked_false_noop_witness :
    idleLock.setLocked true [1, 2] false lockHeap = some (idleLock, lockHeap) ∧
      unmanagedLock.setLocked true [1, 2] false lockHeap = some (unmanagedLock, lockHeap) :=
  ⟨setLocked_false_noop true [1, 2] idleLock lockHeap rfl,
   setLocked_false_noop true [1, 2] unmanagedLock lockHeap rfl⟩

/-! ## Mask setter and getter -/

/-- C11: after `setMask(m)` with a mask object `m` the getter returns `m`, but
after `setMask(nullptr)` on a proxy window whose mask is `m0` the getter still
returns `m0`, the object on which `setMask` has just called `deleteLater`; no
`maskChanged` is emitted. -/
theorem setMask_null_keeps_old_mask (self : ProxyWindowBase) (m m0 : PendingRegion)
    (h : Heap) :
    (self.setMask (some m) h).1.mask = some m ∧
      (({ self with mMask := some m0 } : ProxyWindowBase).setMask none h).1.mask = some m0 ∧
      m0.id ∈ (({ self with mMask := some m0 } : ProxyWindowBase).setMask none h).2.deleteLater ∧
      (({ self with mMask := some m0 } : ProxyWindowBase).setMask none h).1.maskChanged =
        self.maskChanged := by
  refine ⟨?_, ?_, ?_, ?_⟩
  · simp [ProxyWindowBase.setMask, ProxyWindowBase.mask]
  · simp [ProxyWindowBase.setMask, ProxyWindowBase.mask]
  · simp [ProxyWindowBase.setMask, Heap.scheduleDelete]
  · simp [ProxyWindowBase.setMask]

/-! ## Lock-state notification -/

theorem surfaceLoop_outcome (rest : List Nat) :
    ∀ (self : WlSessionLock) (h : Heap) (c : QQmlComponent) (m : SessionLockManager),
      self.mSurfaceComponent = some c → self.manager = some m → m.locked = true →
      ∃ (self1 : WlSessionLock) (h1 : Heap),
        self.surfaceLoop rest none h = some (self1, none, h1) ∧
        ((self1.manager = some m ∧ self1.lockTarget = self.lockTarget ∧
            self1.lockStateChanged = self.lockStateChanged) ∨
         (self1.manager = some { locked := false } ∧ self1.lockTarget = false ∧
            self1.lockStateChanged = self.lockStateChanged + 1 ∧ self1.surfaces = [] ∧
            ∃ k, c.calls ≤ k ∧ c.yields k ≠ Created.surface)) := by
  induction rest with
  | nil =>
    intro self h c m _ hm _
    exact ⟨self, h, rfl, Or.inl ⟨hm, rfl, rfl⟩⟩
  | cons screen rest ih =>
    intro self h c m hcomp hm hl
    cases hcont : QMap.contains self.surfaces screen with
    | true =>
      obtain ⟨self1, h1, hloop, hout⟩ := ih self.showAll h c m hcomp hm hl
      refine ⟨self1, h1, ?_, hout⟩
      simp only [WlSessionLock.surfaceLoop, surfaceStep_present screen self none h hcont]
      exact hloop
    | false =>
      by_cases hy : c.yields c.calls = Created.surface
      · have hstep := surfaceStep_create screen self h c hcomp hy hcont
        obtain ⟨self1, h1, hloop, hout⟩ :=
          ih (WlSessionLock.showAll
                { self with
                    mSurfaceComponent := some { c with calls := c.calls + 1 }
                    surfaces := QMap.insert self.surfaces screen
                      (freshSurface self.id screen h) })
            (freshSurfaceHeap screen h) { c with calls := c.calls + 1 } m rfl hm hl
        refine ⟨self1, h1, ?_, ?_⟩
        · simp only [WlSessionLock.surfaceLoop, hstep]
          exact hloop
        · rcases hout with hkeep | ⟨h1m, h1t, h1s, h1e, k, hk, hky⟩
          · exact Or.inl hkeep
          · exact Or.inr ⟨h1m, h1t, h1s, h1e, k, Nat.le_of_succ_le hk, hky⟩
      · obtain ⟨h1, hstep, _, _⟩ :=
          surfaceStep_reject screen self h c m hcomp hy hcont hm hl
        refine ⟨unlockedLock
            { self with mSurfaceComponent := some { c with calls := c.calls + 1 } },
          h1, ?_, Or.inr ⟨rfl, rfl, rfl, rfl, c.calls, Nat.le_refl _, hy⟩⟩
        simp only [WlSessionLock.surfaceLoop, hstep]

theorem updateSurfaces_outcome (screens : List Nat) (self : WlSessionLock) (h : Heap)
    (m : SessionLockManager) (hm : self.manager = some m) (hl : m.locked = true) :
    ∃ (self1 : WlSessionLock) (h1 : Heap),
      self.updateSurfaces screens none h = some (self1, none, h1) ∧
      ((self1.manager = some m ∧ self1.lockTarget = self.lockTarget ∧
          self1.lockStateChanged = self.lockStateChanged) ∨
       (self1.manager = some { locked := false } ∧ self1.lockTarget = false ∧
          self1.lockStateChanged = self.lockStateChanged + 1 ∧ self1.surfaces = [] ∧
          (self.mSurfaceComponent = none ∨
            ∃ c k, self.mSurfaceComponent = some c ∧ c.calls ≤ k ∧
              c.yields k ≠ Created.surface))) := by
  cases hcomp : self.mSurfaceComponent with
  | none =>
    have hu := unlock_locked
      { self with surfaces := self.surfaces.filter (fun e => screens.contains e.1) }
      { h with
          deleteLater := h.deleteLater ++
            (self.surfaces.filter (fun e => !screens.contains e.1)).map (fun e => e.2.id) }
      m hm hl
    refine ⟨unlockedLock
        { self with surfaces := self.surfaces.filter (fun e => screens.contains e.1) },
      { h with
          deleteLater := h.deleteLater ++
            (self.surfaces.filter (fun e => !screens.contains e.1)).map (fun e => e.2.id) ++
            (QMap.values (self.surfaces.filter (fun e => screens.contains e.1))).map
              (fun s => s.id) },
      ?_, Or.inr ⟨rfl, rfl, rfl, rfl, Or.inl rfl⟩⟩
    rw [hm, hcomp] at hu
    simp only [WlSessionLock.updateSurfaces, hm, SessionLockManager.isLocked, hl, if_true,
      removeStale_self, hcomp, Option.isNone_none, hu, Option.map_some']
  | some c =>
    obtain ⟨self1, h1, hloop, hout⟩ := surfaceLoop_outcome screens
      { self with surfaces := self.surfaces.filter (fun e => screens.contains e.1) }
      { h with
          deleteLater := h.deleteLater ++
            (self.surfaces.filter (fun e => !screens.contains e.1)).map (fun e => e.2.id) }
      c m hcomp hm hl
    refine ⟨self1, h1, ?_, ?_⟩
    · simp only [WlSessionLock.updateSurfaces, hm, SessionLockManager.isLocked, hl, if_true,
        removeStale_self, hcomp, Option.isNone_some, Bool.false_eq_true, if_false]
      rw [hm, hcomp] at hloop
      exact hloop
    · rcases hout with hkeep | ⟨h1m, h1t, h1s, h1e, k, hk, hky⟩
      · exact Or.inl hkeep
      · exact Or.inr ⟨h1m, h1t, h1s, h1e, Or.inr ⟨c, k, rfl, hk, hky⟩⟩

/-- Counterexample to C12 as stated: on a lock with a native lock manager and
no factory, `setLocked(true)` with the native lock granted ends with
`isLocked()` false, as before the call, and yet `lockStateChanged` has been
emitted once. -/
theorem setLocked_aborted_lock_notifies :
    factorylessLock.isLocked = false ∧ factorylessLock.lockStateChanged = 0 ∧
      (factorylessLock.setLocked true [1] true lockHeap).map
          (fun r => (r.1.isLocked, r.1.lockStateChanged)) = some (false, 1) := by
  refine ⟨rfl, rfl, ?_⟩
  decide

theorem setLocked_trichotomy (granted : Bool) (screens : List Nat) (self : WlSessionLock)
    (b : Bool) (h : Heap) :
    ∃ (self1 : WlSessionLock) (h1 : Heap),
      self.setLocked granted screens b h = some (self1, h1) ∧
      ((self1.isLocked ≠ self.isLocked ∧
          self1.lockStateChanged = self.lockStateChanged + 1) ∨
       (self1.isLocked = self.isLocked ∧
          self1.lockStateChanged = self.lockStateChanged ∧
          ¬ (b = true ∧ granted = true ∧ (∃ m, self.manager = some m) ∧
              self.isLocked = false)) ∨
       (b = true ∧ granted = true ∧ (∃ m, self.manager = some m) ∧
          self.isLocked = false ∧ self1.isLocked = false ∧
          self1.lockStateChanged = self.lockStateChanged + 1 ∧ self1.surfaces = [] ∧
          (self.mSurfaceComponent = none ∨
            ∃ c k, self.mSurfaceComponent = some c ∧ c.calls ≤ k ∧
              c.yields k ≠ Created.surface))) := by
  by_cases hsame : self.isLocked = b
  · refine ⟨self, h, by simp [WlSessionLock.setLocked, hsame], Or.inr (Or.inl ⟨rfl, rfl, ?_⟩)⟩
    rintro ⟨hb, _, _, hil⟩
    rw [hb] at hsame
    rw [hsame] at hil
    exact Bool.noConfusion hil
  · cases hm : self.manager with
    | none =>
      have hbefore : self.isLocked = self.lockTarget := by
        simp [WlSessionLock.isLocked, hm]
      refine ⟨{ self with lockTarget := b, lockStateChanged := self.lockStateChanged + 1 }, h,
        ?_, Or.inl ⟨?_, rfl⟩⟩
      · simp [WlSessionLock.setLocked, hsame, hm]
      · simp only [WlSessionLock.isLocked, hm]
        rw [hbefore] at hsame
        exact fun he => hsame he.symm
    | some m =>
      have hbefore : self.isLocked = m.locked := by
        simp [WlSessionLock.isLocked, hm, SessionLockManager.isLocked]
      cases b with
      | false =>
        have hl : m.locked = true := by
          cases hml : m.locked with
          | true => rfl
          | false => exact absurd (hbefore.trans hml) hsame
        have hu := unlock_locked { self with lockTarget := false } h m hm hl
        refine ⟨unlockedLock { self with lockTarget := false },
          { h with
              deleteLater := h.deleteLater ++ (QMap.values self.surfaces).map (fun s => s.id) },
          ?_, Or.inl ⟨?_, rfl⟩⟩
        · rw [hm] at hu
          have hil : self.isLocked = true := hbefore.trans hl
          simp [WlSessionLock.setLocked, hil, hm, hu]
        · rw [hbefore, hl]
          simp [WlSessionLock.isLocked, unlockedLock, SessionLockManager.isLocked]
      | true =>
        have hl : m.locked = false := by
          cases hml : m.locked with
          | false => rfl
          | true => exact absurd (hbefore.trans hml) hsame
        have hil : self.isLocked = false := hbefore.trans hl
        cases granted with
        | false =>
          refine ⟨{ self with lockTarget := false }, h, ?_, Or.inr (Or.inl ⟨?_, rfl, ?_⟩)⟩
          · simp [WlSessionLock.setLocked, hil, hm, SessionLockManager.lock,
              WlSessionLock.updateSurfaces, SessionLockManager.isLocked, hl]
          · rw [hil]
            simp [WlSessionLock.isLocked, hm, SessionLockManager.isLocked, hl]
          · rintro ⟨_, hg, _, _⟩
            exact Bool.noConfusion hg
        | true =>
          obtain ⟨self1, h1, hrun, hout⟩ := updateSurfaces_outcome screens
            { self with lockTarget := true, manager := some { m with locked := true } } h
            { m with locked := true } rfl rfl
          rcases hout with ⟨h1m, h1t, h1s⟩ | ⟨h1m, h1t, h1s, h1e, hcause⟩
          · have h1t1 : self1.lockTarget = true := h1t
            refine ⟨{ self1 with lockStateChanged := self1.lockStateChanged + 1 }, h1, ?_,
              Or.inl ⟨?_, ?_⟩⟩
            · simp [WlSessionLock.setLocked, hil, hm, SessionLockManager.lock, hrun, h1t1]
            · rw [hil]
              simp [WlSessionLock.isLocked, h1m, SessionLockManager.isLocked]
            · simp only [h1s]
          · refine ⟨self1, h1, ?_, Or.inr (Or.inr ⟨rfl, rfl, ⟨m, rfl⟩, hil, ?_, h1s, h1e,
              hcause⟩)⟩
            · simp [WlSessionLock.setLocked, hil, hm, SessionLockManager.lock, hrun, h1t]
            · simp [WlSessionLock.isLocked, h1m, SessionLockManager.isLocked]


theorem updateSurfaces_no_factory (screens : List Nat) (self : WlSessionLock) (h : Heap)
    (m : SessionLockManager) (hm : self.manager = some m) (hl : m.locked = true)
    (hcomp : self.mSurfaceComponent = none) :
    ∃ h1 : Heap,
      self.updateSurfaces screens none h =
        some (unlockedLock
                { self with surfaces := self.surfaces.filter (fun e => screens.contains e.1) },
              none, h1) := by
  have hu := unlock_locked
    { self with surfaces := self.surfaces.filter (fun e => screens.contains e.1) }
    { h with
        deleteLater := h.deleteLater ++
          (self.surfaces.filter (fun e => !screens.contains e.1)).map (fun e => e.2.id) }
    m hm hl
  refine ⟨{ h with
      deleteLater := h.deleteLater ++
        (self.surfaces.filter (fun e => !screens.contains e.1)).map (fun e => e.2.id) ++
        (QMap.values (self.surfaces.filter (fun e => screens.contains e.1))).map
          (fun s => s.id) }, ?_⟩
  rw [hm, hcomp] at hu
  simp only [WlSessionLock.updateSurfaces, hm, SessionLockManager.isLocked, hl, if_true,
    removeStale_self, hcomp, Option.isNone_none, hu, Option.map_some']

theorem setLocked_abort_emits (screens : List Nat) (self : WlSessionLock) (h : Heap)
    (m : SessionLockManager) (hm : self.manager = some m) (hun : m.locked = false)
    (hbad : self.mSurfaceComponent = none ∨
      (self.surfaces = [] ∧ screens.Nodup ∧
        ∃ c j, self.mSurfaceComponent = some c ∧ j < screens.length ∧
          c.yields (c.calls + j) ≠ Created.surface)) :
    ∃ (s : WlSessionLock) (h1 : Heap),
      self.setLocked true screens true h = some (s, h1) ∧
      s.isLocked = false ∧ s.lockStateChanged = self.lockStateChanged + 1 := by
  have hil : self.isLocked = false := by
    simp [WlSessionLock.isLocked, hm, SessionLockManager.isLocked, hun]
  rcases hbad with hnone | ⟨hempty, hnd, c, j, hcomp, hj, hy⟩
  · obtain ⟨h1, hrun⟩ := updateSurfaces_no_factory screens
      { self with lockTarget := true, manager := some { m with locked := true } } h
      { m with locked := true } rfl rfl hnone
    refine ⟨unlockedLock
        { self with
            lockTarget := true
            manager := some { m with locked := true }
            surfaces := self.surfaces.filter (fun e => screens.contains e.1) },
      h1, ?_, ?_, ?_⟩
    · simp [WlSessionLock.setLocked, hil, hm, SessionLockManager.lock, hrun, unlockedLock]
    · simp [WlSessionLock.isLocked, unlockedLock, SessionLockManager.isLocked]
    · simp [unlockedLock]
  · obtain ⟨s, h1, hloop, _, hm1, ht1, hsig, _⟩ :=
      surfaceLoop_reject screens
        { self with lockTarget := true, manager := some { m with locked := true } } h c
        { m with locked := true } j h.nextObj hcomp rfl rfl hnd
        (by
          intro k _
          simp [hempty, QMap.contains])
        hj hy
        (by
          intro i h1 h2
          omega)
    refine ⟨s, h1, ?_, ?_, hsig⟩
    · simp only [hempty, hcomp] at hloop
      simp [WlSessionLock.setLocked, hil, hm, SessionLockManager.lock,
        WlSessionLock.updateSurfaces, SessionLockManager.isLocked, hempty, removeStale,
        hcomp, hloop, ht1]
    · simp [WlSessionLock.isLocked, hm1, SessionLockManager.isLocked]

/-- C12, amended: for every lock state, with or without a native lock manager,
every enumeration, every factory and either outcome of the native lock,
`setLocked(b)` returns.  When the call has acquired the native lock and
released it again (`b` is true, the lock was granted on a lock with a manager
that was not locked, and `isLocked()` is false afterwards), `lockStateChanged`
was emitted exactly once although `isLocked()` is false before and after, the
mapping is empty, and no factory is configured or the factory yields something
that is not a lock surface.  In every other case `lockStateChanged` was emitted
exactly once if `isLocked()` has changed and not at all if it has not.  The
exception does occur: whenever the native lock is granted on an unlocked lock
with a manager and no factory is configured, or the mapping is empty, the
enumeration duplicate-free and the factory fails at one of its first
`screens.length` calls. -/
theorem setLocked_notification (granted : Bool) (screens : List Nat) (self : WlSessionLock)
    (b : Bool) (h : Heap) :
    ∃ (self1 : WlSessionLock) (h1 : Heap),
      self.setLocked granted screens b h = some (self1, h1) ∧
      ((b = true ∧ granted = true ∧ (∃ m, self.manager = some m) ∧
          self.isLocked = false ∧ self1.isLocked = false) →
        self1.lockStateChanged = self.lockStateChanged + 1 ∧ self1.surfaces = [] ∧
        (self.mSurfaceComponent = none ∨
          ∃ c k, self.mSurfaceComponent = some c ∧ c.calls ≤ k ∧
            c.yields k ≠ Created.surface)) ∧
      (¬ (b = true ∧ granted = true ∧ (∃ m, self.manager = some m) ∧
          self.isLocked = false ∧ self1.isLocked = false) →
        (self1.isLocked ≠ self.isLocked →
          self1.lockStateChanged = self.lockStateChanged + 1) ∧
        (self1.isLocked = self.isLocked →
          self1.lockStateChanged = self.lockStateChanged)) ∧
      (b = true → granted = true → (∃ m, self.manager = some m) → self.isLocked = false →
        (self.mSurfaceComponent = none ∨
          (self.surfaces = [] ∧ screens.Nodup ∧
            ∃ c j, self.mSurfaceComponent = some c ∧ j < screens.length ∧
              c.yields (c.calls + j) ≠ Created.surface)) →
        self1.isLocked = false ∧ self1.lockStateChanged = self.lockStateChanged + 1) := by
  obtain ⟨self1, h1, hrun, hcases⟩ := setLocked_trichotomy granted screens self b h
  refine ⟨self1, h1, hrun, ?_, ?_, ?_⟩
  · rintro ⟨hb, hg, hmx, hbefore, hafter⟩
    rcases hcases with ⟨hne, _⟩ | ⟨_, _, hnot⟩ | ⟨_, _, _, _, _, hcount, hempty, hcause⟩
    · rw [hbefore, hafter] at hne
      exact absurd rfl hne
    · exact absurd ⟨hb, hg, hmx, hbefore⟩ hnot
    · exact ⟨hcount, hempty, hcause⟩
  · intro hnot
    rcases hcases with ⟨hne, hcount⟩ | ⟨hsame, hcount, _⟩ |
      ⟨hb, hg, hmx, hbefore, hafter, _⟩
    · exact ⟨fun _ => hcount, fun he => absurd he hne⟩
    · exact ⟨fun hne => absurd hsame hne, fun _ => hcount⟩
    · exact absurd ⟨hb, hg, hmx, hbefore, hafter⟩ hnot
  · rintro hb hg ⟨m, hm⟩ hbefore hbad
    subst hb hg
    have hun : m.locked = false := by
      simpa [WlSessionLock.isLocked, hm, SessionLockManager.isLocked] using hbefore
    obtain ⟨s, h2, hrun2, hl2, hc2⟩ := setLocked_abort_emits screens self h m hm hun hbad
    rw [hrun] at hrun2
    simp only [Option.some.injEq, Prod.mk.injEq] at hrun2
    rw [hrun2.1]
    exact ⟨hl2, hc2⟩

/-- Witness of C12, amended: with a factory whose second object is not a lock
surface, `setLocked(true)` over screens 1 and 2 is the exception: it returns
not locked, as before, after one emission; with a valid factory it returns
locked after one emission. -/
theorem setLocked_notification_witness :
    (∃ (self1 : WlSessionLock) (h1 : Heap),
        brokenLock.setLocked true [1, 2] true lockHeap = some (self1, h1) ∧
        self1.isLocked = false ∧ self1.lockStateChanged = 1) ∧
    (∃ (self1 : WlSessionLock) (h1 : Heap),
        idleLock.setLocked true [1, 2] true lockHeap = some (self1, h1) ∧
        self1.isLocked = true ∧ self1.lockStateChanged = 1) := by
  constructor
  · obtain ⟨self1, h1, hrun, _, _, hoccurs⟩ :=
      setLocked_notification true [1, 2] brokenLock true lockHeap
    have hres := hoccurs rfl rfl ⟨{ locked := false }, rfl⟩ rfl
      (Or.inr ⟨rfl, by decide, brokenFactory, 1, rfl, by decide, by decide⟩)
    exact ⟨self1, h1, hrun, hres.1, hres.2⟩
  · obtain ⟨self1, h1, hrun, _, hexact, _⟩ :=
      setLocked_notification true [1, 2] idleLock true lockHeap
    have heval : idleLock.setLocked true [1, 2] true lockHeap =
        some (lockedTwo, lockedTwoHeap) := rfl
    rw [hrun] at heval
    simp only [Option.some.injEq, Prod.mk.injEq] at heval
    have hl : self1.isLocked = true := by
      rw [heval.1]
      rfl
    have hnot : ¬ (true = true ∧ true = true ∧ (∃ m, idleLock.manager = some m) ∧
        idleLock.isLocked = false ∧ self1.isLocked = false) := by
      rintro ⟨_, _, _, _, hf⟩
      rw [hl] at hf
      exact Bool.noConfusion hf
    have hcount := (hexact hnot).1 (by
      rw [hl]
      decide)
    exact ⟨self1, h1, hrun, hl, hcount⟩

end Quickshell
